import Mathlib

/-! # icecream client: running the preprocessor (`client/cpp.cpp`)

A shallow embedding of `dcc_is_preprocessed`, `call_cpp` and
`find_included_headers`, followed by theorems about them.

Conventions of the embedding

* A `std::string` / C string is a Lean `String` (a sequence of characters
  without an embedded NUL, each standing for one `char`, so that
  `strdup(s.c_str())` is `s` itself and `size()` and `strlen` are the
  length); `strdup` and `new` are assumed to succeed.
* An `int` has 32 bits: a value stored in one is narrowed by `toInt32`, an
  `int` used as a string index is widened to the 64-bit `size_t` by
  `toSizeT`. The counters `argc` and `i` of the two `argv` builders stay far
  below 2^31, the flag lists being short, and are plain numbers.
* `std::list<string>` is `List String`; a list iterator is a split of the
  list into the nodes in front of it and the nodes from it on (`ListIt`).
* The `argv` array is a list of slots of the allocated size; writing outside
  of it is an error (`none`).
* Everything the operating system or the rest of icecream decides (the result
  of `fork`, `pipe`, `access`, `realpath`, `dcc_ignore_sigpipe`, `execv`,
  `find_compiler`, ...) is an input, collected in `World`. The model of a
  function returns the system calls it issues, in order, and how it ends.
-/

set_option linter.unusedVariables false

namespace Icecream

/-! ## Data model -/

/-- Modelled from the spec: the enumeration behind `job.preprocessMode()` is
declared outside `cpp.cpp`; the spec gives its values as Direct and
RewriteIncludes. `call_cpp` only compares it with `RewriteIncludes`. -/
inductive PreprocessMode where
  | Direct
  | RewriteIncludes
deriving DecidableEq, Repr

/-- The part of `CompileJob` that `cpp.cpp` reads, through the accessors
`inputFile()`, `preprocessMode()`, `localFlags()`, `cppFlags()` and
`restFlags()`. -/
structure CompileJob where
  inputFile : String
  preprocessMode : PreprocessMode
  localFlags : List String
  cppFlags : List String
  restFlags : List String
deriving DecidableEq, Repr

/-- Modelled from the spec: `appendList(list, toadd)` is declared outside
`cpp.cpp`; the flag groups are "concatenated in that order", so it appends the
elements of `toadd` at the end of `list`. -/
def appendList (list toadd : List String) : List String := list ++ toadd

/-- The three toolchain queries `cpp.cpp` makes about a job: `find_compiler`,
`compiler_is_clang`, `compiler_has_rewrite_includes` (defined elsewhere in the
client, so they are taken as given). -/
structure Toolchain where
  find_compiler : CompileJob → String
  compiler_is_clang : CompileJob → Bool
  compiler_has_rewrite_includes : CompileJob → Bool

/-- The readability state of the file system: which paths `access(_, R_OK)`
accepts. -/
abbrev FileSystem := String → Bool

/-- The call `access(path, R_OK)`: 0 when the path is readable, -1 when not. -/
def access (fs : FileSystem) (path : String) : Int :=
  if fs path then 0 else -1

/-! ## `dcc_is_preprocessed` (cpp.cpp 42-52) -/

/-- The value an integer has once it is stored in a 32-bit `int` (two's
complement, as gcc and clang narrow a `size_t` and wrap `int` arithmetic). -/
def toInt32 (n : Int) : Int := (n + 2147483648) % 4294967296 - 2147483648

/-- The value an `int` has once it is converted to the 64-bit `size_t` that
`std::string::operator[]` takes: a negative `int` becomes a huge index. -/
def toSizeT (n : Int) : Nat := (n % 18446744073709551616).toNat

/-- The function `dcc_is_preprocessed`, on the characters of `sfile`:
`int last = sfile.size() - 1` narrows the size to 32 bits, and `last`,
`last-1`, `last-2` index the string as `size_t`. A read outside the string
(undefined in C++) matches no character; up to a size of 2^31 every read is
inside the string. -/
def dcc_is_preprocessed (sfile : String) : Bool :=
  let s := sfile.data
  if s.length < 3 then false
  else
    let last : Int := toInt32 ((s.length : Int) - 1)
    if s[toSizeT (toInt32 (last - 1))]? = some '.' && s[toSizeT last]? = some 'i' then true
    else if s[toSizeT (toInt32 (last - 2))]? = some '.' &&
        s[toSizeT (toInt32 (last - 1))]? = some 'i' && s[toSizeT last]? = some 'i' then true
    else false

/-! ## The `-include` loop of `call_cpp` (cpp.cpp 97-114) -/

/-- A `std::list<string>` together with one iterator `it` into it: `before`
holds the nodes in front of `it`, nearest first (so in reverse list order),
and `after` the node `it` points to and the ones behind it; `it == end()` is
`after = []`. -/
structure ListIt where
  before : List String
  after : List String
deriving DecidableEq, Repr

/-- The list an iterator state stands for. -/
def ListIt.toList (z : ListIt) : List String := z.before.reverse ++ z.after

/-- The iterator `flags.begin()`. -/
def ListIt.begin (flags : List String) : ListIt := ⟨[], flags⟩

/-- The test `it == flags.end()`. -/
def ListIt.atEnd (z : ListIt) : Bool := z.after.isEmpty

/-- The value `*it`; `none` for `end()`, which must not be dereferenced. -/
def ListIt.deref (z : ListIt) : Option String := z.after.head?

/-- The step `++it`; `none` for `end()`, which must not be incremented. -/
def ListIt.next (z : ListIt) : Option ListIt :=
  match z.after with
  | [] => none
  | x :: xs => some ⟨x :: z.before, xs⟩

/-- The step `--it`; `none` for `begin()`, which must not be decremented. -/
def ListIt.prev (z : ListIt) : Option ListIt :=
  match z.before with
  | [] => none
  | x :: xs => some ⟨xs, x :: z.after⟩

/-- The call `flags.erase(o)` for the node `o` directly in front of `it`; `it`
stays on its node. Both erasures of the loop are of this kind: `o = --it; it++`
and `o = it++` each leave `o` one node in front of `it`. It is `none` when
there is no such node. -/
def ListIt.erasePrev (z : ListIt) : Option ListIt :=
  match z.before with
  | [] => none
  | _ :: xs => some ⟨xs, z.after⟩

/-- The loop `for (it = flags.begin(); it != flags.end();) { ... }` of
`call_cpp`, started in the state `z`; the result is the state in which it
stops, or `none` if an iterator is used out of range on the way. -/
def eraseLoop (fs : FileSystem) (z : ListIt) : Option ListIt :=
  if z.atEnd then some z
  else
    match z.deref with
    | none => none
    | some tok =>
      if tok = "-include" then
        match h1 : z.next with
        | none => none
        | some z1 =>
          if z1.atEnd then eraseLoop fs z1
          else
            match z1.deref with
            | none => none
            | some p =>
              if access fs p ≠ 0 ∧ access fs (p ++ ".gch") = 0 then
                match h2 : z1.prev with
                | none => none
                | some z2 =>
                  match h3 : z2.next with
                  | none => none
                  | some z3 =>
                    match h4 : z3.erasePrev with
                    | none => none
                    | some z4 =>
                      match h5 : z4.next with
                      | none => none
                      | some z5 =>
                        match h6 : z5.erasePrev with
                        | none => none
                        | some z6 => eraseLoop fs z6
              else eraseLoop fs z1
      else
        match h1 : z.next with
        | none => none
        | some z1 => eraseLoop fs z1
termination_by z.after.length
decreasing_by
  · unfold ListIt.next at h1
    split at h1
    · exact absurd h1 (by simp)
    · next heq =>
      simp only [Option.some.injEq] at h1
      subst h1
      simp [heq]
  · unfold ListIt.next at h1
    split at h1
    · exact absurd h1 (by simp)
    · next heq =>
      simp only [Option.some.injEq] at h1
      subst h1
      simp only [ListIt.prev, Option.some.injEq] at h2
      subst h2
      simp only [ListIt.next, Option.some.injEq] at h3
      subst h3
      simp only [ListIt.erasePrev, Option.some.injEq] at h4
      subst h4
      unfold ListIt.next at h5
      split at h5
      · exact absurd h5 (by simp)
      · next heq5 =>
        simp only [Option.some.injEq] at h5
        subst h5
        simp only [ListIt.erasePrev, Option.some.injEq] at h6
        subst h6
        simp only at heq5
        simp [heq, heq5]
        omega
  · unfold ListIt.next at h1
    split at h1
    · exact absurd h1 (by simp)
    · next heq =>
      simp only [Option.some.injEq] at h1
      subst h1
      simp [heq]
  · unfold ListIt.next at h1
    split at h1
    · exact absurd h1 (by simp)
    · next heq =>
      simp only [Option.some.injEq] at h1
      subst h1
      simp [heq]

/-- A recursive description of what the `-include` loop leaves of the nodes
from `it` on: used in proofs, and shown equal to the loop in `eraseLoop_eq`. -/
def filterRec (fs : FileSystem) : List String → List String
  | [] => []
  | [tok] => [tok]
  | tok :: p :: rest =>
    if tok = "-include" then
      if access fs p ≠ 0 ∧ access fs (p ++ ".gch") = 0 then filterRec fs rest
      else tok :: filterRec fs (p :: rest)
    else tok :: filterRec fs (p :: rest)

/-- The flag list left by the `-include` loop of `call_cpp` when it is run on
`flags` from `flags.begin()`; `none` if an iterator is used out of range. -/
def filterFlags (fs : FileSystem) (flags : List String) : Option (List String) :=
  (eraseLoop fs (ListIt.begin flags)).map ListIt.toList

/-! ## The `argv` array -/

/-- One element of a `char **argv` array obtained from `new char*[n]`: not yet
written, the null pointer, or a pointer to a string. -/
inductive Slot where
  | uninit
  | null
  | str (s : String)
deriving DecidableEq, Repr

/-- The array `new char*[n]`. -/
def newArgv (n : Nat) : List Slot := List.replicate n Slot.uninit

/-- The assignment `argv[i] = v`; `none` when `i` is outside the array. -/
def setArgv (argv : List Slot) (i : Nat) (v : Slot) : Option (List Slot) :=
  if i < argv.length then some (argv.set i v) else none

/-- The loop `for (it = flags.begin(); it != flags.end(); ++it)
argv[i++] = strdup(it->c_str());`, giving the array and `i` after it. -/
def copyFlags : List String → List Slot → Nat → Option (List Slot × Nat)
  | [], argv, i => some (argv, i)
  | f :: rest, argv, i =>
    (setArgv argv i (Slot.str f)).bind fun argv1 => copyFlags rest argv1 (i + 1)

/-- What `execv` reads from an `argv` array: the strings in front of the first
null pointer; `none` when it meets an unwritten element or the end of the
array first. -/
def argvTokens : List Slot → Option (List String)
  | [] => none
  | Slot.null :: _ => some []
  | Slot.str s :: rest => (argvTokens rest).map fun ts => s :: ts
  | Slot.uninit :: _ => none

/-- The array `argv` that the child of `call_cpp` builds (cpp.cpp 84-133). -/
def call_cpp_argv (tc : Toolchain) (fs : FileSystem) (job : CompileJob) : Option (List Slot) :=
  if dcc_is_preprocessed job.inputFile then
    let argv := newArgv (2 + 1)
    (setArgv argv 0 (Slot.str "/bin/cat")).bind fun argv =>
    (setArgv argv 1 (Slot.str job.inputFile)).bind fun argv =>
    setArgv argv 2 Slot.null
  else
    let flags := job.localFlags
    let flags := appendList flags job.cppFlags
    (filterFlags fs flags).bind fun flags =>
    let flags := appendList flags job.restFlags
    let argc := flags.length
    let argc := argc + 1
    let argc := argc + 2
    let argc := argc + 1
    let argv := newArgv (argc + 1)
    (setArgv argv 0 (Slot.str (tc.find_compiler job))).bind fun argv =>
    (copyFlags flags argv 1).bind fun r =>
    let argv := r.1
    let i := r.2
    (setArgv argv i (Slot.str "-E")).bind fun argv =>
    let i := i + 1
    (setArgv argv i (Slot.str job.inputFile)).bind fun argv =>
    let i := i + 1
    if job.preprocessMode = PreprocessMode.RewriteIncludes then
      (setArgv argv i (Slot.str "-frewrite-includes")).bind fun argv =>
      let i := i + 1
      setArgv argv i Slot.null
    else
      setArgv argv i Slot.null

/-- The array `argv` that the child of `find_included_headers` builds
(cpp.cpp 210-236). -/
def find_included_headers_argv (tc : Toolchain) (job : CompileJob) : Option (List Slot) :=
  let flags := job.localFlags
  let flags := appendList flags job.cppFlags
  let flags := appendList flags job.restFlags
  let argc := flags.length
  let argc := argc + 1
  let argc := argc + 3
  let argc := argc + 1
  let argv := newArgv (argc + 1)
  (setArgv argv 0 (Slot.str (tc.find_compiler job))).bind fun argv =>
  (copyFlags flags argv 1).bind fun r =>
  let argv := r.1
  let i := r.2
  (setArgv argv i (Slot.str "-E")).bind fun argv =>
  let i := i + 1
  (setArgv argv i (Slot.str "-H")).bind fun argv =>
  let i := i + 1
  (setArgv argv i (Slot.str job.inputFile)).bind fun argv =>
  let i := i + 1
  if tc.compiler_is_clang job then
    if tc.compiler_has_rewrite_includes job then
      (setArgv argv i (Slot.str "-frewrite-includes")).bind fun argv =>
      let i := i + 1
      setArgv argv i Slot.null
    else
      setArgv argv i Slot.null
  else
    (setArgv argv i (Slot.str "-fdirectives-only")).bind fun argv =>
    let i := i + 1
    setArgv argv i Slot.null

/-- The argument vector `execv` receives from the child of `call_cpp`. -/
def call_cpp_vector (tc : Toolchain) (fs : FileSystem) (job : CompileJob) : Option (List String) :=
  (call_cpp_argv tc fs job).bind argvTokens

/-- The argument vector `execv` receives from the child of
`find_included_headers`. -/
def find_included_headers_vector (tc : Toolchain) (job : CompileJob) : Option (List String) :=
  (find_included_headers_argv tc job).bind argvTokens

/-! ## The header scan of `find_included_headers` (cpp.cpp 180-202) -/

/-- The calls `cpp.cpp` makes that act on the process or on its descriptors,
as they are recorded in a run. -/
inductive SysCall where
  | flush_debug
  | log_perror (msg : String)
  | pipe (ret : Int) (fdread fdwrite : Int)
  | fork
  | close (fd : Int)
  | dup2 (oldfd newfd : Int)
  | fdopen (fd : Int)
  | fclose (fd : Int)
  | dcc_ignore_sigpipe (val : Int)
  | dcc_increment_safeguard
  | execv (path : Slot) (argv : List Slot)
deriving DecidableEq, Repr

/-- The body of the loop `while (fgets(buffer, sizeof(buffer), file))` for one
string `buffer` returned by `fgets` (a text line shorter than the buffer is
returned whole, its newline included). The state is the list `includes` and
the calls made so far. -/
def scanLine (realpath : String → Option String) (st : List String × List SysCall)
    (buffer : String) : List String × List SysCall :=
  let b := buffer.data
  if b[0]? = some '.' then
    let pos := (b.takeWhile fun c => c == '.').length
    let pos := pos + ((b.drop pos).takeWhile fun c => c == ' ').length
    let len := b.length
    let b := if b[len - 1]? = some '\n' then b.take (len - 1) else b
    match realpath (String.mk (b.drop pos)) with
    | some filename => (st.1 ++ [filename], st.2)
    | none => (st.1, st.2 ++ [SysCall.log_perror "realpath"])
  else st

/-- The whole loop over the strings `fgets` returns, from the state `st`. -/
def scanLoop (realpath : String → Option String) (st : List String × List SysCall)
    (lines : List String) : List String × List SysCall :=
  lines.foldl (scanLine realpath) st

/-- The list `includes` after the loop, started empty. -/
def scanHeaders (realpath : String → Option String) (lines : List String) : List String :=
  (scanLoop realpath ([], []) lines).1

/-! ## `call_cpp` and `find_included_headers` as runs -/

/-- How a run of a function ends in the process that executes it. -/
inductive Outcome (α : Type) where
  | returned (v : α)
  | exited (status : Int)
  | replaced
  | undefined
deriving DecidableEq, Repr

/-- Everything outside `cpp.cpp` that a run depends on: the toolchain
queries, the readability of files, the value `fork()` returns in the process
that is followed, the value of `dcc_ignore_sigpipe(0)`, the value `execv`
returns if it returns at all (`none`: the image is replaced), the value of
`pipe()` and the two descriptors it stores, the strings `fgets` reads from the
pipe, and `realpath`. -/
structure World where
  tc : Toolchain
  fs : FileSystem
  forkRet : Int
  sigpipeRet : Int
  execvRet : Option Int
  pipeRet : Int
  pipes0 : Int
  pipes1 : Int
  stream : List String
  realpath : String → Option String

/-- The descriptor `STDOUT_FILENO`. -/
def STDOUT_FILENO : Int := 1

/-- The descriptor `STDERR_FILENO`. -/
def STDERR_FILENO : Int := 2

/-- A run of `call_cpp(job, fdwrite, fdread)` (cpp.cpp 64-153): the calls it
makes, in order, and how it ends. -/
def call_cpp (w : World) (job : CompileJob) (fdwrite fdread : Int) :
    List SysCall × Outcome Int :=
  let t := [SysCall.flush_debug, SysCall.fork]
  let pid := w.forkRet
  if pid = -1 then
    (t ++ [SysCall.log_perror "failed to fork:"], Outcome.returned (-1))
  else if pid ≠ 0 then
    let t := if fdwrite > -1 then t ++ [SysCall.close fdwrite] else t
    (t, Outcome.returned pid)
  else
    let t := if fdread > -1 then t ++ [SysCall.close fdread] else t
    let t := t ++ [SysCall.dcc_ignore_sigpipe 0]
    let ret := w.sigpipeRet
    if ret ≠ 0 then (t, Outcome.exited ret)
    else
      match call_cpp_argv w.tc w.fs job with
      | none => (t, Outcome.undefined)
      | some argv =>
        let t :=
          if fdwrite ≠ STDOUT_FILENO then
            t ++ [SysCall.close STDOUT_FILENO, SysCall.dup2 fdwrite STDOUT_FILENO,
              SysCall.close fdwrite]
          else t
        let t := t ++ [SysCall.dcc_increment_safeguard]
        let t := t ++ [SysCall.execv (argv.getD 0 Slot.uninit) argv]
        match w.execvRet with
        | none => (t, Outcome.replaced)
        | some r => (t, Outcome.exited r)

/-- A run of `find_included_headers(job)` (cpp.cpp 162-257). -/
def find_included_headers (w : World) (job : CompileJob) :
    List SysCall × Outcome (List String) :=
  let t := [SysCall.flush_debug, SysCall.pipe w.pipeRet w.pipes0 w.pipes1]
  if w.pipeRet < 0 then
    (t ++ [SysCall.log_perror "pipe"], Outcome.returned [])
  else
    let fdwrite := w.pipes1
    let fdread := w.pipes0
    let t := t ++ [SysCall.fork]
    let pid := w.forkRet
    if pid = -1 then
      (t ++ [SysCall.log_perror "failed to fork:"], Outcome.returned [])
    else if pid ≠ 0 then
      let t := t ++ [SysCall.close fdwrite]
      let t := t ++ [SysCall.fdopen fdread]
      let r := scanLoop w.realpath ([], t) w.stream
      let includes := r.1
      let t := r.2 ++ [SysCall.fclose fdread]
      (t, Outcome.returned includes)
    else
      let t := t ++ [SysCall.close fdread]
      let t := t ++ [SysCall.dcc_ignore_sigpipe 0]
      let ret := w.sigpipeRet
      if ret ≠ 0 then (t, Outcome.exited ret)
      else
        match find_included_headers_argv w.tc job with
        | none => (t, Outcome.undefined)
        | some argv =>
          let t :=
            if fdwrite ≠ STDERR_FILENO then
              t ++ [SysCall.close STDERR_FILENO, SysCall.dup2 fdwrite STDERR_FILENO,
                SysCall.close fdwrite]
            else t
          let t := t ++ [SysCall.close STDOUT_FILENO]
          let t := t ++ [SysCall.dcc_increment_safeguard]
          let t := t ++ [SysCall.execv (argv.getD 0 Slot.uninit) argv]
          match w.execvRet with
          | none => (t, Outcome.replaced)
          | some r => (t, Outcome.exited r)

/-! ## Descriptor tables -/

/-- What an open descriptor refers to: something the process had on entry, or
one of the two ends of the pipe made by `pipe()`. -/
inductive FileObj where
  | inherited (n : Nat)
  | pipeRead
  | pipeWrite
deriving DecidableEq, Repr

/-- The descriptor table of a process: the object behind each descriptor,
`none` for a descriptor that is not open. -/
abbrev FdTable := Int → Option FileObj

/-- The effect of `close(fd)` on the table. -/
def FdTable.close (t : FdTable) (fd : Int) : FdTable :=
  fun x => if x = fd then none else t x

/-- The effect of `dup2(oldfd, newfd)`: nothing when `oldfd` is not open,
otherwise `newfd` refers to the object of `oldfd`. -/
def FdTable.dup2 (t : FdTable) (oldfd newfd : Int) : FdTable :=
  match t oldfd with
  | none => t
  | some o => fun x => if x = newfd then some o else t x

/-- The effect of one recorded call on the descriptor table of the process
that makes it. -/
def SysCall.onFds (t : FdTable) : SysCall → FdTable
  | SysCall.close fd => t.close fd
  | SysCall.fclose fd => t.close fd
  | SysCall.dup2 oldfd newfd => t.dup2 oldfd newfd
  | SysCall.pipe ret fdread fdwrite =>
    if ret < 0 then t
    else fun x =>
      if x = fdwrite then some FileObj.pipeWrite
      else if x = fdread then some FileObj.pipeRead
      else t x
  | _ => t

/-- The descriptor table after a sequence of calls. -/
def runFds (calls : List SysCall) (t : FdTable) : FdTable :=
  calls.foldl SysCall.onFds t


/-! ## The header scan as the specification words it -/

/-- Spec side: a sequence of characters with one trailing newline removed. -/
def stripNewline (l : List Char) : List Char :=
  if l.getLast? = some '\n' then l.dropLast else l

/-- Spec side: the path of a diagnostic line, which is the line with all
leading '.' characters, then all following ' ' characters, and one trailing
newline removed. -/
def specLinePath (line : String) : String :=
  String.mk (stripNewline
    ((line.data.dropWhile fun c => c == '.').dropWhile fun c => c == ' '))

/-- Spec side: the result of the header scan, which is, in input order, the
canonical form of the path of each line that begins with '.' and whose path
can be canonicalized. -/
def specScan (canon : String → Option String) (lines : List String) : List String :=
  lines.filterMap fun line =>
    if line.data.head? = some '.' then canon (specLinePath line) else none

/-! ## The `-include` filter as the specification words it -/

/-- Spec side: the pure one-pass pair filter. On a token "-include" followed
by `P` it drops both when `P` is not readable and `P.gch` is readable and
keeps both otherwise, and in both cases it goes on behind `P`; an "-include"
with no token behind it stays. -/
def specFilter (fs : FileSystem) : List String → List String
  | [] => []
  | [tok] => [tok]
  | tok :: p :: rest =>
    if tok = "-include" then
      if fs p = false ∧ fs (p ++ ".gch") = true then specFilter fs rest
      else tok :: p :: specFilter fs rest
    else tok :: specFilter fs (p :: rest)

/-- Spec side: `PairDeletion fs flags out` says that `out` is `flags` with
zero or more disjoint adjacent pairs "-include", `P` deleted, each with `P`
not readable and `P.gch` readable, and every other token kept in its place. -/
inductive PairDeletion (fs : FileSystem) : List String → List String → Prop where
  | nil : PairDeletion fs [] []
  | keep (x : String) (flags out : List String) :
      PairDeletion fs flags out → PairDeletion fs (x :: flags) (x :: out)
  | drop (P : String) (flags out : List String) :
      fs P = false → fs (P ++ ".gch") = true →
      PairDeletion fs flags out → PairDeletion fs ("-include" :: P :: flags) out

/-! ## Example inputs -/

/-- An example toolchain: gcc at /usr/bin/gcc. -/
def gccToolchain : Toolchain where
  find_compiler := fun _ => "/usr/bin/gcc"
  compiler_is_clang := fun _ => false
  compiler_has_rewrite_includes := fun _ => false

/-- An example file system, in which foo.h.gch is the only readable path. -/
def pchOnly : FileSystem := fun p => p == "foo.h.gch"

/-- An example world around `gccToolchain` and `pchOnly`, with the given
results of `fork`, `dcc_ignore_sigpipe` and `execv`. -/
def exampleWorld (forkRet sigpipeRet : Int) (execvRet : Option Int) : World where
  tc := gccToolchain
  fs := pchOnly
  forkRet := forkRet
  sigpipeRet := sigpipeRet
  execvRet := execvRet
  pipeRet := 0
  pipes0 := 5
  pipes1 := 6
  stream := []
  realpath := fun p => some p

/-- An example world in which `pipe()` fails. -/
def pipeFailWorld : World where
  tc := gccToolchain
  fs := pchOnly
  forkRet := 4711
  sigpipeRet := 0
  execvRet := none
  pipeRet := -1
  pipes0 := 0
  pipes1 := 0
  stream := []
  realpath := fun p => some p

/-- An example descriptor table: the three standard streams are open and
nothing else is. -/
def stdTable : FdTable := fun fd =>
  if fd = 0 then some (FileObj.inherited 0)
  else if fd = 1 then some (FileObj.inherited 1)
  else if fd = 2 then some (FileObj.inherited 2)
  else none

/-- An example descriptor table: the standard streams and the two ends of a
pipe, the read end on descriptor 5 and the write end on descriptor 6. -/
def pipeTable : FdTable := fun fd =>
  if fd = 5 then some FileObj.pipeRead
  else if fd = 6 then some FileObj.pipeWrite
  else stdTable fd

theorem eraseLoop_eq (fs : FileSystem) (n : Nat) :
    ∀ z : ListIt, z.after.length = n →
      eraseLoop fs z = some ⟨(filterRec fs z.after).reverse ++ z.before, []⟩ := by
  induction n using Nat.strong_induction_on with
  | _ n ih =>
    intro z hz
    obtain ⟨before, after⟩ := z
    unfold eraseLoop
    match after with
    | [] => simp [filterRec, ListIt.atEnd]
    | [tok] =>
      simp only [ListIt.next, ListIt.atEnd, ListIt.deref, List.isEmpty_cons, List.head?_cons]
      by_cases ht : tok = "-include"
      · simp only [ht, if_true]
        rw [ih 0 (by simp at hz; omega) ⟨"-include" :: before, []⟩ rfl]
        simp [filterRec]
      · simp only [ht, if_false]
        rw [ih 0 (by simp at hz; omega) ⟨tok :: before, []⟩ rfl]
        simp [filterRec]
    | tok :: p :: rest =>
      simp only [ListIt.next, ListIt.prev, ListIt.erasePrev, ListIt.atEnd, ListIt.deref,
        List.isEmpty_cons, List.head?_cons]
      simp only [List.length_cons] at hz
      by_cases ht : tok = "-include"
      · simp only [ht, if_true]
        by_cases hc : access fs p ≠ 0 ∧ access fs (p ++ ".gch") = 0
        · simp only [hc, if_true]
          rw [ih rest.length (by omega) ⟨before, rest⟩ rfl]
          simp [filterRec, hc]
        · simp only [hc, if_false]
          rw [ih (rest.length + 1) (by omega) ⟨"-include" :: before, p :: rest⟩ rfl]
          simp [filterRec, hc]
      · simp only [ht, if_false]
        rw [ih (rest.length + 1) (by omega) ⟨tok :: before, p :: rest⟩ rfl]
        simp [filterRec, ht]

theorem filterFlags_eq (fs : FileSystem) (flags : List String) :
    filterFlags fs flags = some (filterRec fs flags) := by
  unfold filterFlags
  rw [eraseLoop_eq fs flags.length _ rfl]
  simp [ListIt.toList, ListIt.begin]

theorem access_cond_iff (fs : FileSystem) (p : String) :
    (access fs p ≠ 0 ∧ access fs (p ++ ".gch") = 0) ↔ (fs p = false ∧ fs (p ++ ".gch") = true) := by
  unfold access
  cases fs p <;> cases fs (p ++ ".gch") <;> simp

theorem filterRec_append_of_not_mem (fs : FileSystem) (A l : List String)
    (hA : "-include" ∉ A) : filterRec fs (A ++ l) = A ++ filterRec fs l := by
  induction A with
  | nil => rfl
  | cons a A ih =>
    have ha : a ≠ "-include" := fun h => hA (by simp [h])
    have hA1 : "-include" ∉ A := fun h => hA (by simp [h])
    cases hAl : A ++ l with
    | nil =>
      have h1 : A = [] := (List.append_eq_nil.mp hAl).1
      have h2 : l = [] := (List.append_eq_nil.mp hAl).2
      subst h1 h2
      simp [filterRec]
    | cons p rest =>
      rw [List.cons_append, hAl, filterRec, if_neg ha, ← hAl, ih hA1]
      rfl

theorem filterRec_of_not_mem (fs : FileSystem) (l : List String)
    (hl : "-include" ∉ l) : filterRec fs l = l := by
  have := filterRec_append_of_not_mem fs l [] hl
  simpa [filterRec] using this

theorem filterRec_unchanged (fs : FileSystem) (l : List String)
    (h : ∀ i : Nat, l[i]? = some "-include" →
      i + 1 = l.length ∨
        ∃ P, l[i + 1]? = some P ∧ (fs P = true ∨ fs (P ++ ".gch") = false)) :
    filterRec fs l = l := by
  induction l with
  | nil => rfl
  | cons tok rest ih =>
    have hrest : filterRec fs rest = rest := by
      apply ih
      intro i hi
      have := h (i + 1) (by simpa using hi)
      simpa using this
    cases rest with
    | nil => rfl
    | cons p rest1 =>
      rw [filterRec]
      by_cases ht : tok = "-include"
      · have h0 := h 0 (by simp [ht])
        have hc : ¬ (access fs p ≠ 0 ∧ access fs (p ++ ".gch") = 0) := by
          rw [access_cond_iff]
          rcases h0 with h0 | ⟨P, hP, hr⟩
          · simp at h0
          · simp only [zero_add, List.getElem?_cons_succ, List.getElem?_cons_zero,
              Option.some.injEq] at hP
            subst hP
            rcases hr with hr | hr <;> simp [hr]
        rw [if_pos ht, if_neg hc, hrest]
      · rw [if_neg ht, hrest]


theorem setArgv_at (pre post : List Slot) (x v : Slot) (i : Nat) (hi : i = pre.length) :
    setArgv (pre ++ x :: post) i v = some (pre ++ v :: post) := by
  subst hi
  unfold setArgv
  rw [if_pos (by simp)]
  simp [List.set_append_right]

theorem copyFlags_at (flags : List String) :
    ∀ (pre post : List Slot) (i : Nat), i = pre.length →
      copyFlags flags (pre ++ (List.replicate flags.length Slot.uninit ++ post)) i =
        some (pre ++ (flags.map Slot.str ++ post), i + flags.length) := by
  induction flags with
  | nil => intro pre post i hi; simp [copyFlags]
  | cons f rest ih =>
    intro pre post i hi
    simp only [List.length_cons, List.replicate_succ, List.cons_append, copyFlags]
    rw [setArgv_at pre _ _ _ i hi]
    simp only [Option.some_bind]
    have := ih (pre ++ [Slot.str f]) post (i + 1) (by simp [hi])
    simp only [List.append_assoc, List.singleton_append] at this
    rw [this]
    simp [Nat.add_assoc, Nat.add_comm 1]

theorem argvTokens_strs (l : List String) (rest : List Slot) :
    argvTokens (l.map Slot.str ++ Slot.null :: rest) = some l := by
  induction l with
  | nil => simp [argvTokens]
  | cons x l ih => simp [argvTokens, ih]

theorem setArgv_str (toks : List String) (s : String) (x : Slot) (post : List Slot) (i : Nat)
    (hi : i = toks.length) :
    setArgv (toks.map Slot.str ++ x :: post) i (Slot.str s) =
      some ((toks ++ [s]).map Slot.str ++ post) := by
  rw [setArgv_at _ _ _ _ i (by simp [hi])]
  simp

theorem setArgv_null (toks : List String) (x : Slot) (post : List Slot) (i : Nat)
    (hi : i = toks.length) :
    setArgv (toks.map Slot.str ++ x :: post) i Slot.null =
      some (toks.map Slot.str ++ Slot.null :: post) :=
  setArgv_at _ _ _ _ i (by simp [hi])

theorem copyFlags_strs (toks flags : List String) (post : List Slot) (i : Nat)
    (hi : i = toks.length) :
    copyFlags flags (toks.map Slot.str ++ (List.replicate flags.length Slot.uninit ++ post)) i =
      some ((toks ++ flags).map Slot.str ++ post, i + flags.length) := by
  rw [copyFlags_at flags _ post i (by simp [hi])]
  simp

theorem newArgv_split (n k : Nat) :
    newArgv (n + k + 1) =
      List.map Slot.str [] ++
        Slot.uninit :: (List.replicate n Slot.uninit ++ List.replicate k Slot.uninit) := by
  show List.replicate (n + k + 1) Slot.uninit = _
  rw [List.replicate_succ, List.replicate_add]
  rfl

theorem call_cpp_argv_preprocessed (tc : Toolchain) (fs : FileSystem) (job : CompileJob)
    (h : dcc_is_preprocessed job.inputFile = true) :
    call_cpp_argv tc fs job =
      some [Slot.str "/bin/cat", Slot.str job.inputFile, Slot.null] := by
  unfold call_cpp_argv
  rw [if_pos h]
  rfl

theorem call_cpp_argv_plain (tc : Toolchain) (fs : FileSystem) (job : CompileJob)
    (h : dcc_is_preprocessed job.inputFile = false) :
    call_cpp_argv tc fs job =
      some ((tc.find_compiler job ::
          (filterRec fs (job.localFlags ++ job.cppFlags) ++ job.restFlags ++
            ["-E", job.inputFile] ++
            (if job.preprocessMode = PreprocessMode.RewriteIncludes
              then ["-frewrite-includes"] else []))).map Slot.str ++
        Slot.null ::
          (if job.preprocessMode = PreprocessMode.RewriteIncludes then [] else [Slot.uninit])) := by
  unfold call_cpp_argv
  rw [if_neg (by simp [h])]
  simp only [appendList, filterFlags_eq, Option.some_bind]
  generalize filterRec fs (job.localFlags ++ job.cppFlags) ++ job.restFlags = flags
  have hn : flags.length + 1 + 2 + 1 + 1 = flags.length + 4 + 1 := by omega
  rw [hn, newArgv_split flags.length 4, setArgv_str [] _ _ _ 0 rfl]
  simp only [Option.some_bind]
  rw [copyFlags_strs ([] ++ [tc.find_compiler job]) flags _ 1 (by simp)]
  simp only [Option.some_bind, List.replicate]
  rw [setArgv_str _ "-E" _ _ _ (by simp; omega)]
  simp only [Option.some_bind]
  rw [setArgv_str _ job.inputFile _ _ _ (by simp; omega)]
  simp only [Option.some_bind]
  by_cases hm : job.preprocessMode = PreprocessMode.RewriteIncludes
  · simp only [hm, if_true]
    rw [setArgv_str _ "-frewrite-includes" _ _ _ (by simp; omega)]
    simp only [Option.some_bind]
    rw [setArgv_null _ _ _ _ (by simp; omega)]
    simp
  · simp only [hm, if_false]
    rw [setArgv_null _ _ _ _ (by simp; omega)]
    simp

theorem find_included_headers_argv_eq (tc : Toolchain) (job : CompileJob) :
    find_included_headers_argv tc job =
      some ((tc.find_compiler job ::
          (job.localFlags ++ job.cppFlags ++ job.restFlags ++
            ["-E", "-H", job.inputFile] ++
            (if tc.compiler_is_clang job = true then
              (if tc.compiler_has_rewrite_includes job = true then ["-frewrite-includes"] else [])
             else ["-fdirectives-only"]))).map Slot.str ++
        Slot.null ::
          (if tc.compiler_is_clang job = true ∧ tc.compiler_has_rewrite_includes job = false
            then [Slot.uninit] else [])) := by
  unfold find_included_headers_argv
  simp only [appendList]
  generalize job.localFlags ++ job.cppFlags ++ job.restFlags = flags
  have hn : flags.length + 1 + 3 + 1 + 1 = flags.length + 5 + 1 := by omega
  rw [hn, newArgv_split flags.length 5, setArgv_str [] _ _ _ 0 rfl]
  simp only [Option.some_bind]
  rw [copyFlags_strs ([] ++ [tc.find_compiler job]) flags _ 1 (by simp)]
  simp only [Option.some_bind, List.replicate]
  rw [setArgv_str _ "-E" _ _ _ (by simp; omega)]
  simp only [Option.some_bind]
  rw [setArgv_str _ "-H" _ _ _ (by simp; omega)]
  simp only [Option.some_bind]
  rw [setArgv_str _ job.inputFile _ _ _ (by simp; omega)]
  simp only [Option.some_bind]
  cases hclang : tc.compiler_is_clang job
  · simp only [Bool.false_eq_true, if_false, false_and]
    rw [setArgv_str _ "-fdirectives-only" _ _ _ (by simp; omega)]
    simp only [Option.some_bind]
    rw [setArgv_null _ _ _ _ (by simp; omega)]
    simp
  · cases hrw : tc.compiler_has_rewrite_includes job
    · simp only [if_true, Bool.false_eq_true, if_false, and_self]
      rw [setArgv_null _ _ _ _ (by simp; omega)]
      simp
    · simp only [if_true, Bool.true_eq_false, and_false, if_false]
      rw [setArgv_str _ "-frewrite-includes" _ _ _ (by simp; omega)]
      simp only [Option.some_bind]
      rw [setArgv_null _ _ _ _ (by simp; omega)]
      simp

theorem call_cpp_vector_plain (tc : Toolchain) (fs : FileSystem) (job : CompileJob)
    (h : dcc_is_preprocessed job.inputFile = false) :
    call_cpp_vector tc fs job =
      some (tc.find_compiler job ::
          (filterRec fs (job.localFlags ++ job.cppFlags) ++ job.restFlags ++
            ["-E", job.inputFile] ++
            (if job.preprocessMode = PreprocessMode.RewriteIncludes
              then ["-frewrite-includes"] else []))) := by
  unfold call_cpp_vector
  rw [call_cpp_argv_plain tc fs job h, Option.some_bind, argvTokens_strs]

theorem call_cpp_child_run (w : World) (job : CompileJob) (fdwrite fdread : Int)
    (argv : List Slot) (hfork : w.forkRet = 0) (hsig : w.sigpipeRet = 0)
    (hargv : call_cpp_argv w.tc w.fs job = some argv) :
    (call_cpp w job fdwrite fdread).1.getLast? =
      some (SysCall.execv (argv.getD 0 Slot.uninit) argv) := by
  unfold call_cpp
  simp only [hfork, hsig, hargv]
  cases w.execvRet <;> simp


theorem drop_length_takeWhile (p : Char → Bool) (l : List Char) :
    l.drop (l.takeWhile p).length = l.dropWhile p := by
  induction l with
  | nil => rfl
  | cons a l ih =>
    by_cases h : p a = true
    · simp [List.takeWhile_cons, List.dropWhile_cons, h, ih]
    · simp [List.takeWhile_cons, List.dropWhile_cons, h]

theorem getLast?_dropWhile_of_false (p : Char → Bool) (c : Char) (hc : p c = false)
    (l : List Char) (h : l.getLast? = some c) : (l.dropWhile p).getLast? = some c := by
  induction l with
  | nil => simp at h
  | cons a l ih =>
    cases l with
    | nil =>
      simp only [List.getLast?_singleton, Option.some.injEq] at h
      subst h
      simp [List.dropWhile_cons, hc]
    | cons b l =>
      rw [List.getLast?_cons_cons] at h
      by_cases ha : p a = true
      · rw [List.dropWhile_cons_of_pos ha]
        exact ih h
      · rw [List.dropWhile_cons_of_neg ha, List.getLast?_cons_cons]
        exact h

theorem getLast?_of_dropWhile (p : Char → Bool) (c : Char)
    (l : List Char) (h : (l.dropWhile p).getLast? = some c) : l.getLast? = some c := by
  induction l with
  | nil => simp at h
  | cons a l ih =>
    by_cases ha : p a = true
    · rw [List.dropWhile_cons_of_pos ha] at h
      have hl := ih h
      cases l with
      | nil => simp at hl
      | cons b l => rw [List.getLast?_cons_cons]; exact hl
    · rw [List.dropWhile_cons_of_neg ha] at h
      exact h

theorem scan_path_eq (b : List Char) :
    (if b[b.length - 1]? = some '\n' then b.take (b.length - 1) else b).drop
        ((b.takeWhile fun c => c == '.').length +
          ((b.drop (b.takeWhile fun c => c == '.').length).takeWhile fun c => c == ' ').length) =
      stripNewline ((b.dropWhile fun c => c == '.').dropWhile fun c => c == ' ') := by
  have hdrop : b.drop ((b.takeWhile fun c => c == '.').length +
          ((b.drop (b.takeWhile fun c => c == '.').length).takeWhile fun c => c == ' ').length) =
      (b.dropWhile fun c => c == '.').dropWhile fun c => c == ' ' := by
    rw [← List.drop_drop, drop_length_takeWhile, drop_length_takeWhile]
  have hlast : b[b.length - 1]? = b.getLast? := by
    rw [List.getLast?_eq_getElem?]
  rw [hlast]
  unfold stripNewline
  by_cases hn : b.getLast? = some '\n'
  · have h2 := getLast?_dropWhile_of_false (fun c => c == ' ') '\n' (by decide) _
      (getLast?_dropWhile_of_false (fun c => c == '.') '\n' (by decide) b hn)
    rw [if_pos hn, if_pos h2, List.dropLast_eq_take, ← hdrop, List.drop_take,
      List.length_drop]
    congr 1
    omega
  · have h2 : ¬ ((b.dropWhile fun c => c == '.').dropWhile fun c => c == ' ').getLast? =
        some '\n' := fun h =>
      hn (getLast?_of_dropWhile _ _ _ (getLast?_of_dropWhile _ _ _ h))
    rw [if_neg hn, if_neg h2, hdrop]

theorem scanLine_fst (realpath : String → Option String) (st : List String × List SysCall)
    (line : String) :
    (scanLine realpath st line).1 = st.1 ++ specScan realpath [line] := by
  unfold scanLine specScan specLinePath
  simp only [scan_path_eq]
  have h0 : line.data[0]? = line.data.head? := by
    cases line.data <;> simp
  rw [h0]
  by_cases hd : line.data.head? = some '.'
  · simp only [hd, if_true, List.filterMap_cons, List.filterMap_nil]
    cases realpath _ <;> simp
  · simp [hd]

theorem scanLoop_fst (realpath : String → Option String) (lines : List String) :
    ∀ st : List String × List SysCall,
      (scanLoop realpath st lines).1 = st.1 ++ specScan realpath lines := by
  induction lines with
  | nil => intro st; simp [scanLoop, specScan]
  | cons l ls ih =>
    intro st
    have h := ih (scanLine realpath st l)
    unfold scanLoop at h ⊢
    rw [List.foldl_cons, h, scanLine_fst, List.append_assoc]
    simp only [specScan, ← List.filterMap_append, List.singleton_append]

/-- C2: when the input file is classified as preprocessed, the `argv` array
built in the child of `call_cpp` is exactly "/bin/cat", the input file and the
null terminator, whatever the flag groups, the preprocess mode and the
readability of files are; it is the array handed to `execv`. -/
theorem call_cpp_preprocessed_vector (tc : Toolchain) (fs : FileSystem) (job : CompileJob)
    (h : dcc_is_preprocessed job.inputFile = true) :
    call_cpp_argv tc fs job = some [Slot.str "/bin/cat", Slot.str job.inputFile, Slot.null] ∧
    call_cpp_vector tc fs job = some ["/bin/cat", job.inputFile] ∧
    ∀ (w : World) (fdwrite fdread : Int), w.tc = tc → w.fs = fs →
      w.forkRet = 0 → w.sigpipeRet = 0 →
      (call_cpp w job fdwrite fdread).1.getLast? =
        some (SysCall.execv (Slot.str "/bin/cat")
          [Slot.str "/bin/cat", Slot.str job.inputFile, Slot.null]) := by
  have harr := call_cpp_argv_preprocessed tc fs job h
  refine ⟨harr, ?_, ?_⟩
  · unfold call_cpp_vector
    rw [harr]
    rfl
  · intro w fdwrite fdread htc hfs hfork hsig
    subst htc hfs
    exact call_cpp_child_run w job fdwrite fdread _ hfork hsig harr

/-- Witness for C2: the job for foo.ii with flags in all three groups. -/
theorem call_cpp_preprocessed_vector_witness :
    call_cpp_vector gccToolchain pchOnly
      ⟨"foo.ii", PreprocessMode.RewriteIncludes, ["-O2"], ["-include", "foo.h"], ["-Wall"]⟩ =
      some ["/bin/cat", "foo.ii"] :=
  (call_cpp_preprocessed_vector gccToolchain pchOnly
    ⟨"foo.ii", PreprocessMode.RewriteIncludes, ["-O2"], ["-include", "foo.h"], ["-Wall"]⟩
    (by decide)).2.1

/-- C3: when the input file is not classified as preprocessed and neither the
local nor the preprocessor flags contain "-include", the argument vector built
in the child of `call_cpp` is the compiler, the local, preprocessor and rest
flags in their order, "-E", the input file, and "-frewrite-includes" exactly
in the mode RewriteIncludes. -/
theorem call_cpp_plain_vector (tc : Toolchain) (fs : FileSystem) (job : CompileJob)
    (h : dcc_is_preprocessed job.inputFile = false)
    (hlocal : "-include" ∉ job.localFlags) (hcpp : "-include" ∉ job.cppFlags) :
    call_cpp_vector tc fs job =
      some ([tc.find_compiler job] ++ job.localFlags ++ job.cppFlags ++ job.restFlags ++
        ["-E", job.inputFile] ++
        (if job.preprocessMode = PreprocessMode.RewriteIncludes
          then ["-frewrite-includes"] else [])) := by
  have hmem : "-include" ∉ job.localFlags ++ job.cppFlags := by
    simp [hlocal, hcpp]
  rw [call_cpp_vector_plain tc fs job h, filterRec_of_not_mem fs _ hmem]
  simp

/-- Witness for C3: local flags -O2, preprocessor flags -DX, no rest flags,
mode RewriteIncludes. -/
theorem call_cpp_plain_vector_witness :
    call_cpp_vector gccToolchain pchOnly
      ⟨"foo.c", PreprocessMode.RewriteIncludes, ["-O2"], ["-DX"], []⟩ =
      some ["/usr/bin/gcc", "-O2", "-DX", "-E", "foo.c", "-frewrite-includes"] :=
  call_cpp_plain_vector gccToolchain pchOnly
    ⟨"foo.c", PreprocessMode.RewriteIncludes, ["-O2"], ["-DX"], []⟩
    (by decide) (by decide) (by decide)

/-- C4: the argument vector built in the child of `find_included_headers` is
the compiler, the local, preprocessor and rest flags verbatim, "-E", "-H", the
input file, and then "-frewrite-includes" for a clang that supports it, nothing
for a clang that does not, and "-fdirectives-only" for any other compiler. The
builder never consults the file system, so an "-include P" pair stays in the
vector whatever the readability of `P` and `P.gch` is. -/
theorem find_included_headers_vector_eq (tc : Toolchain) (job : CompileJob) :
    find_included_headers_vector tc job =
      some ([tc.find_compiler job] ++ job.localFlags ++ job.cppFlags ++ job.restFlags ++
        ["-E", "-H", job.inputFile] ++
        (if tc.compiler_is_clang job = true then
          (if tc.compiler_has_rewrite_includes job = true then ["-frewrite-includes"] else [])
         else ["-fdirectives-only"])) := by
  unfold find_included_headers_vector
  rw [find_included_headers_argv_eq, Option.some_bind, argvTokens_strs]
  simp

/-- Witness for C4: the pair -include foo.h stays in the scanner's vector
(in a world where foo.h is unreadable and foo.h.gch readable, as in any
other). -/
theorem find_included_headers_vector_witness :
    find_included_headers_vector gccToolchain
      ⟨"foo.c", PreprocessMode.Direct, ["-O2"], ["-include", "foo.h"], ["-Wall"]⟩ =
      some ["/usr/bin/gcc", "-O2", "-include", "foo.h", "-Wall", "-E", "-H", "foo.c",
        "-fdirectives-only"] :=
  find_included_headers_vector_eq gccToolchain
    ⟨"foo.c", PreprocessMode.Direct, ["-O2"], ["-include", "foo.h"], ["-Wall"]⟩

/-- C5: in a flag list `A ++ ["-include", P] ++ B` in which "-include" occurs
exactly once, with `P` not readable and `P.gch` readable, the loop of
`call_cpp` ends normally and leaves exactly `A ++ B`. -/
theorem filterFlags_removes_pch_pair (fs : FileSystem) (A B : List String) (P : String)
    (honce : (A ++ ["-include", P] ++ B).count "-include" = 1)
    (hP : fs P = false) (hgch : fs (P ++ ".gch") = true) :
    filterFlags fs (A ++ ["-include", P] ++ B) = some (A ++ B) := by
  have hcount : A.count "-include" + (if P = "-include" then 1 else 0) + B.count "-include" = 0 := by
    simp only [List.count_append, List.count_cons, List.count_nil, beq_self_eq_true,
      if_true, beq_iff_eq] at honce
    omega
  have hA : "-include" ∉ A := by
    rw [← List.count_eq_zero]; omega
  have hB : "-include" ∉ B := by
    rw [← List.count_eq_zero]; omega
  have hc : access fs P ≠ 0 ∧ access fs (P ++ ".gch") = 0 :=
    (access_cond_iff fs P).mpr ⟨hP, hgch⟩
  rw [filterFlags_eq, List.append_assoc, filterRec_append_of_not_mem fs A _ hA]
  simp only [List.cons_append, List.nil_append]
  rw [filterRec, if_pos rfl, if_pos hc, filterRec_of_not_mem fs B hB]

/-- Witness for C5: the list -O2 -include foo.h -DX, where only foo.h.gch is
readable. -/
theorem filterFlags_removes_pch_pair_witness :
    filterFlags (fun p => p == "foo.h.gch") (["-O2"] ++ ["-include", "foo.h"] ++ ["-DX"]) =
      some (["-O2"] ++ ["-DX"]) :=
  filterFlags_removes_pch_pair (fun p => p == "foo.h.gch") ["-O2"] ["-DX"] "foo.h"
    (by decide) (by decide) (by decide)

/-- C6: when every "-include" of a flag list is its last token or is followed
by a token `P` that is readable or whose `P.gch` is not readable, the loop of
`call_cpp` ends normally (no iterator is dereferenced or moved out of range)
and leaves the list as it was; this covers a list that ends in "-include". -/
theorem filterFlags_unchanged (fs : FileSystem) (flags : List String)
    (h : ∀ i : Nat, flags[i]? = some "-include" →
      i + 1 = flags.length ∨
        ∃ P, flags[i + 1]? = some P ∧ (fs P = true ∨ fs (P ++ ".gch") = false)) :
    filterFlags fs flags = some flags := by
  rw [filterFlags_eq, filterRec_unchanged fs flags h]

/-- Witness for C6: the list -O2 -include foo.h -include, where foo.h is
readable; its last token is an "-include" with nothing behind it. -/
theorem filterFlags_unchanged_witness :
    filterFlags (fun p => p == "foo.h") ["-O2", "-include", "foo.h", "-include"] =
      some ["-O2", "-include", "foo.h", "-include"] :=
  filterFlags_unchanged (fun p => p == "foo.h") ["-O2", "-include", "foo.h", "-include"]
    (by
      intro i hi
      match i, hi with
      | 0, hi => exact absurd hi (by decide)
      | 1, _ => exact Or.inr ⟨"foo.h", rfl, Or.inl (by decide)⟩
      | 2, hi => exact absurd hi (by decide)
      | 3, _ => exact Or.inl rfl
      | n + 4, hi => exact absurd hi (by simp))

/-- C7: for every canonicalization function and every sequence of strings read
by `fgets` (a line shorter than the buffer is read whole), the list returned
by the scan is, in input order, the canonical form of the path of each line
that begins with '.' and whose path canonicalizes, the path being the line
without its leading '.' characters, the ' ' characters after them and one
trailing newline; other lines give nothing, duplicates stay. It is the list
the parent branch of `find_included_headers` returns. -/
theorem scanHeaders_spec :
    (∀ (canon : String → Option String) (lines : List String),
        scanHeaders canon lines = specScan canon lines) ∧
    (∀ canon : String → Option String,
        scanHeaders canon
            [". /usr/include/stdio.h\n", ".. /usr/include/bits/types.h\n", "note: something\n"] =
          (canon "/usr/include/stdio.h").toList ++ (canon "/usr/include/bits/types.h").toList) ∧
    (∀ (w : World) (job : CompileJob), ¬ w.pipeRet < 0 → w.forkRet ≠ -1 → w.forkRet ≠ 0 →
        (find_included_headers w job).2 = Outcome.returned (specScan w.realpath w.stream)) := by
  have hmain : ∀ (canon : String → Option String) (lines : List String),
      scanHeaders canon lines = specScan canon lines := by
    intro canon lines
    unfold scanHeaders
    rw [scanLoop_fst]
    rfl
  refine ⟨hmain, ?_, ?_⟩
  · intro canon
    rw [hmain]
    have p1 : specLinePath ". /usr/include/stdio.h\n" = "/usr/include/stdio.h" := by decide
    have p2 : specLinePath ".. /usr/include/bits/types.h\n" = "/usr/include/bits/types.h" := by
      decide
    have d1 : (". /usr/include/stdio.h\n" : String).data.head? = some '.' := by decide
    have d2 : (".. /usr/include/bits/types.h\n" : String).data.head? = some '.' := by decide
    have d3 : ¬ ("note: something\n" : String).data.head? = some '.' := by decide
    simp only [specScan, List.filterMap_cons, List.filterMap_nil, d1, d2, d3, p1, p2, if_true,
      if_false]
    cases canon "/usr/include/stdio.h" <;> cases canon "/usr/include/bits/types.h" <;> rfl
  · intro w job hpipe hfork hchild
    unfold find_included_headers
    simp only [hpipe, hfork, hchild, if_false, ne_eq, not_false_eq_true, if_true]
    rw [scanLoop_fst]
    rfl

/-- Witness for C7: with a `realpath` that resolves every path to itself, the
three lines of the example give the two header paths, in that order. -/
theorem scanHeaders_spec_witness :
    scanHeaders (fun p => some p)
        [". /usr/include/stdio.h\n", ".. /usr/include/bits/types.h\n", "note: something\n"] =
      ["/usr/include/stdio.h", "/usr/include/bits/types.h"] :=
  scanHeaders_spec.2.1 (fun p => some p)

/-- C8: when `fork` fails, `call_cpp` makes no call besides `flush_debug`,
`fork` and `log_perror` (so no `execv`, `close` or `dup2`), leaves every
descriptor table as it was and returns -1; and it returns -1 only when `fork`
fails. -/
theorem call_cpp_fork_failure (w : World) (job : CompileJob) (fdwrite fdread : Int) :
    (w.forkRet = -1 →
      call_cpp w job fdwrite fdread =
        ([SysCall.flush_debug, SysCall.fork, SysCall.log_perror "failed to fork:"],
          Outcome.returned (-1)) ∧
      ∀ t : FdTable, runFds (call_cpp w job fdwrite fdread).1 t = t) ∧
    ((call_cpp w job fdwrite fdread).2 = Outcome.returned (-1) → w.forkRet = -1) := by
  constructor
  · intro hfork
    have hrun : call_cpp w job fdwrite fdread =
        ([SysCall.flush_debug, SysCall.fork, SysCall.log_perror "failed to fork:"],
          Outcome.returned (-1)) := by
      unfold call_cpp
      simp [hfork]
    refine ⟨hrun, ?_⟩
    intro t
    rw [hrun]
    rfl
  · intro hret
    by_contra hfork
    unfold call_cpp at hret
    simp only [hfork, if_false] at hret
    by_cases hchild : w.forkRet = 0
    · simp only [hchild, ne_eq, not_true_eq_false, if_false] at hret
      by_cases hsig : w.sigpipeRet = 0
      · simp only [hsig, not_true_eq_false, if_false] at hret
        cases hargv : call_cpp_argv w.tc w.fs job with
        | none => simp [hargv] at hret
        | some argv =>
          simp only [hargv] at hret
          cases hexec : w.execvRet <;> simp [hexec] at hret
      · simp [hsig] at hret
    · simp only [ne_eq, hchild, not_false_eq_true, if_true] at hret
      simp only [Outcome.returned.injEq] at hret
      exact hfork hret

/-- Witness for C8: a world in which `fork` returns -1. -/
theorem call_cpp_fork_failure_witness :
    call_cpp (exampleWorld (-1) 0 none)
        ⟨"foo.c", PreprocessMode.Direct, ["-O2"], [], []⟩ 6 5 =
      ([SysCall.flush_debug, SysCall.fork, SysCall.log_perror "failed to fork:"],
        Outcome.returned (-1)) :=
  ((call_cpp_fork_failure (exampleWorld (-1) 0 none)
    ⟨"foo.c", PreprocessMode.Direct, ["-O2"], [], []⟩ 6 5).1 rfl).1

/-- C9: in the parent (`fork` returned a pid other than -1 and 0) `call_cpp`
returns that pid and makes no call on descriptors besides `close(fdwrite)`,
made exactly when `fdwrite > -1`: afterwards `fdwrite` is closed in that case,
and every other descriptor, `fdread` among them, refers to what it referred to
on entry. -/
theorem call_cpp_parent (w : World) (job : CompileJob) (fdwrite fdread : Int)
    (hfork : w.forkRet ≠ -1) (hparent : w.forkRet ≠ 0) :
    (call_cpp w job fdwrite fdread).2 = Outcome.returned w.forkRet ∧
    (call_cpp w job fdwrite fdread).1 =
      [SysCall.flush_debug, SysCall.fork] ++
        (if fdwrite > -1 then [SysCall.close fdwrite] else []) ∧
    ∀ t : FdTable,
      (fdwrite > -1 → runFds (call_cpp w job fdwrite fdread).1 t fdwrite = none) ∧
      (∀ fd : Int, fd ≠ fdwrite → runFds (call_cpp w job fdwrite fdread).1 t fd = t fd) ∧
      (fdread ≠ fdwrite → runFds (call_cpp w job fdwrite fdread).1 t fdread = t fdread) := by
  have hrun : call_cpp w job fdwrite fdread =
      ([SysCall.flush_debug, SysCall.fork] ++
        (if fdwrite > -1 then [SysCall.close fdwrite] else []), Outcome.returned w.forkRet) := by
    unfold call_cpp
    simp only [hfork, hparent, if_false, ne_eq, not_false_eq_true, if_true]
    split <;> simp
  have hother : ∀ (t : FdTable) (fd : Int), fd ≠ fdwrite →
      runFds (call_cpp w job fdwrite fdread).1 t fd = t fd := by
    intro t fd hfd
    rw [hrun]
    by_cases hw : fdwrite > -1
    · simp [hw, runFds, SysCall.onFds, FdTable.close, hfd]
    · simp [hw, runFds, SysCall.onFds]
  refine ⟨by rw [hrun], by rw [hrun], ?_⟩
  intro t
  refine ⟨?_, hother t, hother t fdread⟩
  intro hw
  rw [hrun]
  simp [hw, runFds, SysCall.onFds, FdTable.close]

/-- Witness for C9: `fork` returns the pid 4711, `fdwrite` is 6 and `fdread`
is 5. -/
theorem call_cpp_parent_witness :
    (call_cpp (exampleWorld 4711 0 none)
        ⟨"foo.c", PreprocessMode.Direct, ["-O2"], [], []⟩ 6 5).2 = Outcome.returned 4711 :=
  (call_cpp_parent (exampleWorld 4711 0 none)
    ⟨"foo.c", PreprocessMode.Direct, ["-O2"], [], []⟩ 6 5 (by decide) (by decide)).1

/-- C10, as stated, fails: for the job foo.c with local flags -O2 and rest
flags -include foo.h, where foo.h is unreadable and foo.h.gch readable, the
loop run on local ++ cpp ++ rest would leave only -O2, but the vector built by
`call_cpp` still holds -include foo.h. -/
theorem call_cpp_rest_pair_kept :
    dcc_is_preprocessed "foo.c" = false ∧
    pchOnly "foo.h" = false ∧ pchOnly ("foo.h" ++ ".gch") = true ∧
    filterFlags pchOnly (["-O2"] ++ [] ++ ["-include", "foo.h"]) = some ["-O2"] ∧
    call_cpp_vector gccToolchain pchOnly
        ⟨"foo.c", PreprocessMode.Direct, ["-O2"], [], ["-include", "foo.h"]⟩ =
      some ["/usr/bin/gcc", "-O2", "-include", "foo.h", "-E", "foo.c"] ∧
    call_cpp_vector gccToolchain pchOnly
        ⟨"foo.c", PreprocessMode.Direct, ["-O2"], [], ["-include", "foo.h"]⟩ ≠
      some (["/usr/bin/gcc"] ++ ["-O2"] ++ ["-E", "foo.c"]) := by
  have hvec : call_cpp_vector gccToolchain pchOnly
        ⟨"foo.c", PreprocessMode.Direct, ["-O2"], [], ["-include", "foo.h"]⟩ =
      some ["/usr/bin/gcc", "-O2", "-include", "foo.h", "-E", "foo.c"] := by
    rw [call_cpp_vector_plain _ _ _ (by decide)]
    simp [filterRec, gccToolchain]
  refine ⟨by decide, by decide, by decide, ?_, hvec, ?_⟩
  · rw [filterFlags_eq]
    simp [filterRec, access, pchOnly]
  · rw [hvec]
    decide

/-- C10, amended: for a job whose input is not classified as preprocessed, the
loop of `call_cpp` runs on the local flags followed by the preprocessor flags
only, and ends normally; the flag section of the vector is what it leaves,
followed by the rest flags as they are. -/
theorem call_cpp_vector_flag_section (tc : Toolchain) (fs : FileSystem) (job : CompileJob)
    (h : dcc_is_preprocessed job.inputFile = false) :
    ∃ kept : List String,
      filterFlags fs (job.localFlags ++ job.cppFlags) = some kept ∧
      call_cpp_vector tc fs job =
        some ([tc.find_compiler job] ++ kept ++ job.restFlags ++ ["-E", job.inputFile] ++
          (if job.preprocessMode = PreprocessMode.RewriteIncludes
            then ["-frewrite-includes"] else [])) := by
  refine ⟨filterRec fs (job.localFlags ++ job.cppFlags), filterFlags_eq fs _, ?_⟩
  rw [call_cpp_vector_plain tc fs job h]
  simp

/-- Witness for the amended C10: the pair -include foo.h is in the local flags
and in the rest flags of the job; the first is removed, the second stays. -/
theorem call_cpp_vector_flag_section_witness :
    call_cpp_vector gccToolchain pchOnly
        ⟨"foo.c", PreprocessMode.Direct, ["-include", "foo.h", "-O2"], [],
          ["-include", "foo.h"]⟩ =
      some ["/usr/bin/gcc", "-O2", "-include", "foo.h", "-E", "foo.c"] := by
  obtain ⟨kept, hkept, hvec⟩ := call_cpp_vector_flag_section gccToolchain pchOnly
    ⟨"foo.c", PreprocessMode.Direct, ["-include", "foo.h", "-O2"], [], ["-include", "foo.h"]⟩
    (by decide)
  rw [filterFlags_eq] at hkept
  simp only [List.append_nil, Option.some.injEq] at hkept
  have hk : kept = ["-O2"] := by
    rw [← hkept]
    simp [filterRec, access, pchOnly]
  subst hk
  rw [hvec]
  rfl

/-- C11, as stated, fails: when `pipe()` fails, and when `fork()` fails,
`find_included_headers` returns the empty list, which is also what it returns
after a successful scan of a stream without header lines. -/
theorem find_included_headers_failure_value :
    pipeFailWorld.pipeRet < 0 ∧
    (find_included_headers pipeFailWorld
      ⟨"foo.c", PreprocessMode.Direct, ["-O2"], [], []⟩).2 = Outcome.returned [] ∧
    ¬ (exampleWorld (-1) 0 none).pipeRet < 0 ∧ (exampleWorld (-1) 0 none).forkRet = -1 ∧
    (find_included_headers (exampleWorld (-1) 0 none)
      ⟨"foo.c", PreprocessMode.Direct, ["-O2"], [], []⟩).2 = Outcome.returned [] ∧
    ¬ (exampleWorld 4711 0 none).pipeRet < 0 ∧ (exampleWorld 4711 0 none).forkRet ≠ -1 ∧
    (exampleWorld 4711 0 none).forkRet ≠ 0 ∧
    (find_included_headers (exampleWorld 4711 0 none)
      ⟨"foo.c", PreprocessMode.Direct, ["-O2"], [], []⟩).2 = Outcome.returned [] := by
  refine ⟨by decide, ?_, by decide, by decide, ?_, by decide, by decide, by decide, ?_⟩
  · rfl
  · rfl
  · rfl

/-- C11, amended: when creating the pipe or forking fails,
`find_included_headers` reports it with `log_perror`, its last call, and
returns the empty list; that value is not set apart from the successful ones,
a successful scan of a stream without header lines returns it as well. -/
theorem find_included_headers_setup_failure (w : World) (job : CompileJob)
    (h : w.pipeRet < 0 ∨ w.forkRet = -1) :
    (find_included_headers w job).2 = Outcome.returned [] ∧
    (∃ msg : String,
      (find_included_headers w job).1.getLast? = some (SysCall.log_perror msg)) ∧
    ∃ w' : World, ¬ w'.pipeRet < 0 ∧ w'.forkRet ≠ -1 ∧ w'.forkRet ≠ 0 ∧
      (find_included_headers w' job).2 = Outcome.returned [] := by
  refine ⟨?_, ?_, ⟨exampleWorld 4711 0 none, by decide, by decide, by decide, rfl⟩⟩
  · unfold find_included_headers
    by_cases hp : w.pipeRet < 0
    · simp [hp]
    · have hf : w.forkRet = -1 := h.resolve_left hp
      simp [hp, hf]
  · unfold find_included_headers
    by_cases hp : w.pipeRet < 0
    · exact ⟨"pipe", by simp [hp]⟩
    · have hf : w.forkRet = -1 := h.resolve_left hp
      exact ⟨"failed to fork:", by simp [hp, hf]⟩

/-- Witness for the amended C11: the world in which `pipe()` fails. -/
theorem find_included_headers_setup_failure_witness :
    (find_included_headers pipeFailWorld
      ⟨"foo.c", PreprocessMode.Direct, ["-O2"], [], []⟩).2 = Outcome.returned [] :=
  (find_included_headers_setup_failure pipeFailWorld
    ⟨"foo.c", PreprocessMode.Direct, ["-O2"], [], []⟩ (Or.inl (by decide))).1

theorem filterRec_congr (fs1 fs2 : FileSystem) (n : Nat) :
    ∀ l : List String, l.length ≤ n →
      (∀ P ∈ l, fs1 P = fs2 P ∧ fs1 (P ++ ".gch") = fs2 (P ++ ".gch")) →
      filterRec fs1 l = filterRec fs2 l := by
  induction n with
  | zero =>
    intro l hl _
    have : l = [] := List.length_eq_zero.mp (by omega)
    subst this
    rfl
  | succ n ih =>
    intro l hl hagree
    match l with
    | [] => rfl
    | [tok] => rfl
    | tok :: p :: rest =>
      simp only [List.length_cons] at hl
      have hp := hagree p (by simp)
      have hrest : filterRec fs1 rest = filterRec fs2 rest :=
        ih rest (by omega) (fun P hP => hagree P (by simp [hP]))
      have hprest : filterRec fs1 (p :: rest) = filterRec fs2 (p :: rest) :=
        ih (p :: rest) (by simp only [List.length_cons]; omega)
          (fun P hP => hagree P (List.mem_cons_of_mem _ hP))
      have hcond : (access fs1 p ≠ 0 ∧ access fs1 (p ++ ".gch") = 0) ↔
          (access fs2 p ≠ 0 ∧ access fs2 (p ++ ".gch") = 0) := by
        rw [access_cond_iff, access_cond_iff, hp.1, hp.2]
      rw [filterRec, filterRec, hrest, hprest]
      by_cases ht : tok = "-include"
      · by_cases hc : access fs1 p ≠ 0 ∧ access fs1 (p ++ ".gch") = 0
        · rw [if_pos ht, if_pos ht, if_pos hc, if_pos (hcond.mp hc)]
        · rw [if_pos ht, if_pos ht, if_neg hc, if_neg (fun h => hc (hcond.mpr h))]
      · rw [if_neg ht, if_neg ht]

/-- C12, as stated, fails: for the job foo.c with local flags -include foo.h
the vector built under the file system in which only foo.h.gch is readable
differs from the one built when every path is readable. -/
theorem call_cpp_vector_reads_file_system :
    call_cpp_vector gccToolchain pchOnly
        ⟨"foo.c", PreprocessMode.Direct, ["-include", "foo.h"], [], []⟩ =
      some ["/usr/bin/gcc", "-E", "foo.c"] ∧
    call_cpp_vector gccToolchain (fun _ => true)
        ⟨"foo.c", PreprocessMode.Direct, ["-include", "foo.h"], [], []⟩ =
      some ["/usr/bin/gcc", "-include", "foo.h", "-E", "foo.c"] ∧
    call_cpp_vector gccToolchain pchOnly
        ⟨"foo.c", PreprocessMode.Direct, ["-include", "foo.h"], [], []⟩ ≠
      call_cpp_vector gccToolchain (fun _ => true)
        ⟨"foo.c", PreprocessMode.Direct, ["-include", "foo.h"], [], []⟩ := by
  have h1 : call_cpp_vector gccToolchain pchOnly
        ⟨"foo.c", PreprocessMode.Direct, ["-include", "foo.h"], [], []⟩ =
      some ["/usr/bin/gcc", "-E", "foo.c"] := by
    rw [call_cpp_vector_plain _ _ _ (by decide)]
    simp [filterRec, access, pchOnly, gccToolchain]
  have h2 : call_cpp_vector gccToolchain (fun _ => true)
        ⟨"foo.c", PreprocessMode.Direct, ["-include", "foo.h"], [], []⟩ =
      some ["/usr/bin/gcc", "-include", "foo.h", "-E", "foo.c"] := by
    rw [call_cpp_vector_plain _ _ _ (by decide)]
    simp [filterRec, access, gccToolchain]
  refine ⟨h1, h2, ?_⟩
  rw [h1, h2]
  decide

/-- C12, amended: the vector built by `call_cpp` is a function of the job, the
mode, the toolchain path and the readability of the files named in the local
and preprocessor flags: two runs under file systems that agree on `P` and on
`P.gch` for every token `P` of these two flag groups build the same array and
the same vector. -/
theorem call_cpp_vector_deterministic (tc : Toolchain) (job : CompileJob)
    (fs1 fs2 : FileSystem)
    (h : ∀ P ∈ job.localFlags ++ job.cppFlags,
      fs1 P = fs2 P ∧ fs1 (P ++ ".gch") = fs2 (P ++ ".gch")) :
    call_cpp_argv tc fs1 job = call_cpp_argv tc fs2 job ∧
    call_cpp_vector tc fs1 job = call_cpp_vector tc fs2 job := by
  have harr : call_cpp_argv tc fs1 job = call_cpp_argv tc fs2 job := by
    cases hpre : dcc_is_preprocessed job.inputFile with
    | true =>
      rw [call_cpp_argv_preprocessed tc fs1 job hpre, call_cpp_argv_preprocessed tc fs2 job hpre]
    | false =>
      rw [call_cpp_argv_plain tc fs1 job hpre, call_cpp_argv_plain tc fs2 job hpre,
        filterRec_congr fs1 fs2 _ _ (Nat.le_refl _) h]
  refine ⟨harr, ?_⟩
  unfold call_cpp_vector
  rw [harr]

/-- Witness for the amended C12: two file systems that differ on bar.h only,
and the job foo.c with local flags -include foo.h. -/
theorem call_cpp_vector_deterministic_witness :
    call_cpp_vector gccToolchain pchOnly
        ⟨"foo.c", PreprocessMode.Direct, ["-include", "foo.h"], [], ["-Wall"]⟩ =
      call_cpp_vector gccToolchain (fun p => p == "foo.h.gch" || p == "bar.h")
        ⟨"foo.c", PreprocessMode.Direct, ["-include", "foo.h"], [], ["-Wall"]⟩ :=
  (call_cpp_vector_deterministic gccToolchain
    ⟨"foo.c", PreprocessMode.Direct, ["-include", "foo.h"], [], ["-Wall"]⟩
    pchOnly (fun p => p == "foo.h.gch" || p == "bar.h")
    (by
      intro P hP
      simp only [List.append_nil, List.mem_cons, List.mem_singleton, List.not_mem_nil,
        or_false] at hP
      rcases hP with rfl | rfl <;> exact ⟨by decide, by decide⟩)).2

theorem filterRec_cons_of_ne (fs : FileSystem) (tok : String) (rest : List String)
    (ht : tok ≠ "-include") : filterRec fs (tok :: rest) = tok :: filterRec fs rest := by
  cases rest with
  | nil => rfl
  | cons p rest => rw [filterRec, if_neg ht]

theorem filterRec_eq_specFilter (fs : FileSystem) (n : Nat) :
    ∀ l : List String, l.length ≤ n →
      (∀ i : Nat, l[i]? = some "-include" → l[i + 1]? ≠ some "-include") →
      filterRec fs l = specFilter fs l := by
  induction n with
  | zero =>
    intro l hl _
    have : l = [] := List.length_eq_zero.mp (by omega)
    subst this
    rfl
  | succ n ih =>
    intro l hl hadj
    match l with
    | [] => rfl
    | [tok] => rfl
    | tok :: p :: rest =>
      simp only [List.length_cons] at hl
      have hprest : filterRec fs (p :: rest) = specFilter fs (p :: rest) :=
        ih (p :: rest) (by simp only [List.length_cons]; omega)
          (fun i hi => by simpa using hadj (i + 1) (by simpa using hi))
      have hrest : filterRec fs rest = specFilter fs rest :=
        ih rest (by omega)
          (fun i hi => by simpa using hadj (i + 2) (by simpa using hi))
      rw [filterRec, specFilter]
      by_cases ht : tok = "-include"
      · have hp : p ≠ "-include" := by
          have := hadj 0 (by simp [ht])
          simpa using this
        by_cases hc : access fs p ≠ 0 ∧ access fs (p ++ ".gch") = 0
        · rw [if_pos ht, if_pos ht, if_pos hc, if_pos ((access_cond_iff fs p).mp hc), hrest]
        · rw [if_pos ht, if_pos ht, if_neg hc,
            if_neg (fun h => hc ((access_cond_iff fs p).mpr h)),
            filterRec_cons_of_ne fs p rest hp, hrest]
      · rw [if_neg ht, if_neg ht, hprest]

/-- C13 at the failing input -include -include foo.h, where foo.h is
unreadable and foo.h.gch readable: the first pair is kept (neither "-include"
nor "-include.gch" is a readable file), the spec's filter goes on behind its
operand and keeps all three tokens, but the loop of `call_cpp` goes on at the
operand, takes it for a flag and erases it together with foo.h. On the flag
lists in which no "-include" is directly followed by another "-include" the
loop and the spec's filter agree. -/
theorem eraseLoop_reexamines_kept_operand :
    (pchOnly "-include" = false ∧ pchOnly ("-include" ++ ".gch") = false ∧
      pchOnly "foo.h" = false ∧ pchOnly ("foo.h" ++ ".gch") = true ∧
      specFilter pchOnly ["-include", "-include", "foo.h"] =
        ["-include", "-include", "foo.h"] ∧
      filterFlags pchOnly ["-include", "-include", "foo.h"] = some ["-include"] ∧
      filterFlags pchOnly ["-include", "-include", "foo.h"] ≠
        some (["-include", "-include"] ++ specFilter pchOnly ["foo.h"])) ∧
    ∀ (fs : FileSystem) (flags : List String),
      (∀ i : Nat, flags[i]? = some "-include" → flags[i + 1]? ≠ some "-include") →
      filterFlags fs flags = some (specFilter fs flags) := by
  have hloop : filterFlags pchOnly ["-include", "-include", "foo.h"] = some ["-include"] := by
    rw [filterFlags_eq]
    simp [filterRec, access, pchOnly]
  refine ⟨⟨by decide, by decide, by decide, by decide, ?_, hloop, ?_⟩, ?_⟩
  · simp [specFilter, pchOnly]
  · rw [hloop]
    simp [specFilter]
  · intro fs flags hadj
    rw [filterFlags_eq, filterRec_eq_specFilter fs _ flags (Nat.le_refl _) hadj]

theorem filterRec_pairDeletion (fs : FileSystem) (n : Nat) :
    ∀ l : List String, l.length ≤ n → PairDeletion fs l (filterRec fs l) := by
  induction n with
  | zero =>
    intro l hl
    have : l = [] := List.length_eq_zero.mp (by omega)
    subst this
    exact PairDeletion.nil
  | succ n ih =>
    intro l hl
    match l with
    | [] => exact PairDeletion.nil
    | [tok] => exact PairDeletion.keep tok [] [] PairDeletion.nil
    | tok :: p :: rest =>
      simp only [List.length_cons] at hl
      have hprest := ih (p :: rest) (by simp only [List.length_cons]; omega)
      have hrest := ih rest (by omega)
      rw [filterRec]
      by_cases ht : tok = "-include"
      · by_cases hc : access fs p ≠ 0 ∧ access fs (p ++ ".gch") = 0
        · rw [if_pos ht, if_pos hc, ht]
          have hfs := (access_cond_iff fs p).mp hc
          exact PairDeletion.drop p rest _ hfs.1 hfs.2 hrest
        · rw [if_pos ht, if_neg hc]
          exact PairDeletion.keep tok _ _ hprest
      · rw [if_neg ht]
        exact PairDeletion.keep tok _ _ hprest

theorem PairDeletion.sublist (fs : FileSystem) (l out : List String)
    (h : PairDeletion fs l out) : out.Sublist l := by
  induction h with
  | nil => exact List.Sublist.slnil
  | keep x l out _ ih => exact List.Sublist.cons₂ x ih
  | drop P l out _ _ _ ih => exact List.Sublist.cons _ (List.Sublist.cons _ ih)

theorem filterRec_append_of_getLast (fs : FileSystem) (n : Nat) :
    ∀ A l : List String, A.length ≤ n → A.getLast? ≠ some "-include" →
      filterRec fs (A ++ l) = filterRec fs A ++ filterRec fs l := by
  induction n with
  | zero =>
    intro A l hA _
    have : A = [] := List.length_eq_zero.mp (by omega)
    subst this
    rfl
  | succ n ih =>
    intro A l hA hlast
    match A with
    | [] => rfl
    | [tok] =>
      have ht : tok ≠ "-include" := fun h => hlast (by simp [h])
      rw [List.singleton_append, filterRec_cons_of_ne fs tok l ht]
      rfl
    | tok :: p :: rest =>
      simp only [List.length_cons] at hA
      have hlast1 : (p :: rest).getLast? ≠ some "-include" := by
        rwa [List.getLast?_cons_cons] at hlast
      have hlast2 : rest.getLast? ≠ some "-include" := by
        cases rest with
        | nil => simp
        | cons q rest => rwa [List.getLast?_cons_cons] at hlast1
      have hprest := ih (p :: rest) l (by simp only [List.length_cons]; omega) hlast1
      have hrest := ih rest l (by omega) hlast2
      simp only [List.cons_append] at hprest ⊢
      rw [filterRec, filterRec, hprest, hrest]
      by_cases ht : tok = "-include"
      · by_cases hc : access fs p ≠ 0 ∧ access fs (p ++ ".gch") = 0
        · rw [if_pos ht, if_pos ht, if_pos hc, if_pos hc]
        · rw [if_pos ht, if_pos ht, if_neg hc, if_neg hc, List.cons_append]
      · rw [if_neg ht, if_neg ht, List.cons_append]

/-- C14: for every flag list and every readability state the loop of
`call_cpp` ends normally, and what it leaves is the input with zero or more
disjoint adjacent pairs "-include", `P` deleted, each with `P` not readable
and `P.gch` readable; so it is an order-preserving sublist of the input, and a
token that is not "-include" and does not directly follow an "-include" stays
in its place: the tokens in front of it and behind it are filtered on their
own. -/
theorem filterFlags_pair_deletion (fs : FileSystem) (flags : List String) :
    ∃ out : List String,
      filterFlags fs flags = some out ∧
      PairDeletion fs flags out ∧
      out.Sublist flags ∧
      ∀ (A B : List String) (tok : String),
        flags = A ++ tok :: B → tok ≠ "-include" → A.getLast? ≠ some "-include" →
        ∃ outA outB : List String,
          filterFlags fs A = some outA ∧ filterFlags fs B = some outB ∧
          out = outA ++ tok :: outB := by
  have hdel := filterRec_pairDeletion fs _ flags (Nat.le_refl _)
  refine ⟨filterRec fs flags, filterFlags_eq fs flags, hdel,
    PairDeletion.sublist fs _ _ hdel, ?_⟩
  intro A B tok hsplit htok hlast
  refine ⟨filterRec fs A, filterRec fs B, filterFlags_eq fs A, filterFlags_eq fs B, ?_⟩
  rw [hsplit, filterRec_append_of_getLast fs _ A (tok :: B) (Nat.le_refl _) hlast,
    filterRec_cons_of_ne fs tok B htok]

/-- Witness for C14: in -O2 -include foo.h -DX -include bar.h, with only
foo.h.gch readable, the pair -include foo.h goes and every other token stays
in its place. -/
theorem filterFlags_pair_deletion_witness :
    filterFlags pchOnly ["-O2", "-include", "foo.h", "-DX", "-include", "bar.h"] =
      some ["-O2", "-DX", "-include", "bar.h"] := by
  obtain ⟨out, hout, -, -, hkeep⟩ := filterFlags_pair_deletion pchOnly
    ["-O2", "-include", "foo.h", "-DX", "-include", "bar.h"]
  obtain ⟨outA, outB, hA, hB, hsplit⟩ :=
    hkeep ["-O2", "-include", "foo.h"] ["-include", "bar.h"] "-DX" rfl (by decide) (by decide)
  rw [filterFlags_eq] at hA hB
  simp only [Option.some.injEq] at hA hB
  have hA1 : outA = ["-O2"] := by
    rw [← hA]
    simp [filterRec, access, pchOnly]
  have hB1 : outB = ["-include", "bar.h"] := by
    rw [← hB]
    simp [filterRec, access, pchOnly]
  rw [hout, hsplit, hA1, hB1]
  rfl

theorem call_cpp_argv_isSome (tc : Toolchain) (fs : FileSystem) (job : CompileJob) :
    ∃ argv : List Slot, call_cpp_argv tc fs job = some argv := by
  cases hpre : dcc_is_preprocessed job.inputFile with
  | true => exact ⟨_, call_cpp_argv_preprocessed tc fs job hpre⟩
  | false => exact ⟨_, call_cpp_argv_plain tc fs job hpre⟩

/-- C15: in the child (`fork` returned 0) of `call_cpp` and of
`find_included_headers`, when `dcc_ignore_sigpipe(0)` returns a non-zero `r`
the child makes no call after it and ends in `_exit(r)`: no `dup2`, no
`dcc_increment_safeguard`, no `execv`. In every case the child ends in an
exit or in the replaced image, never in a return to the caller. -/
theorem child_branch_ends (w : World) (job : CompileJob) (fdwrite fdread : Int)
    (hchild : w.forkRet = 0) :
    (w.sigpipeRet ≠ 0 →
      call_cpp w job fdwrite fdread =
        ([SysCall.flush_debug, SysCall.fork] ++
            (if fdread > -1 then [SysCall.close fdread] else []) ++
            [SysCall.dcc_ignore_sigpipe 0],
          Outcome.exited w.sigpipeRet)) ∧
    (w.sigpipeRet ≠ 0 → ¬ w.pipeRet < 0 →
      find_included_headers w job =
        ([SysCall.flush_debug, SysCall.pipe w.pipeRet w.pipes0 w.pipes1, SysCall.fork,
            SysCall.close w.pipes0, SysCall.dcc_ignore_sigpipe 0],
          Outcome.exited w.sigpipeRet)) ∧
    ((call_cpp w job fdwrite fdread).2 = Outcome.replaced ∨
      ∃ status : Int, (call_cpp w job fdwrite fdread).2 = Outcome.exited status) ∧
    (¬ w.pipeRet < 0 →
      (find_included_headers w job).2 = Outcome.replaced ∨
      ∃ status : Int, (find_included_headers w job).2 = Outcome.exited status) := by
  have h0 : ¬ (0 : Int) = -1 := by decide
  refine ⟨?_, ?_, ?_, ?_⟩
  · intro hsig
    unfold call_cpp
    simp only [hchild, h0, if_false, ne_eq, not_true_eq_false, hsig, not_false_eq_true, if_true]
    split <;> simp
  · intro hsig hpipe
    unfold find_included_headers
    simp [hchild, hsig, hpipe]
  · unfold call_cpp
    simp only [hchild, h0, if_false, ne_eq, not_true_eq_false]
    by_cases hsig : w.sigpipeRet = 0
    · obtain ⟨argv, hargv⟩ := call_cpp_argv_isSome w.tc w.fs job
      simp only [hsig, not_true_eq_false, if_false, hargv]
      cases w.execvRet with
      | none => exact Or.inl rfl
      | some r => exact Or.inr ⟨r, rfl⟩
    · simp only [hsig, not_false_eq_true, if_true]
      exact Or.inr ⟨_, rfl⟩
  · intro hpipe
    unfold find_included_headers
    simp only [hpipe, hchild, h0, if_false, ne_eq, not_true_eq_false]
    by_cases hsig : w.sigpipeRet = 0
    · simp only [hsig, not_true_eq_false, if_false, find_included_headers_argv_eq]
      cases w.execvRet with
      | none => exact Or.inl rfl
      | some r => exact Or.inr ⟨r, rfl⟩
    · simp only [hsig, not_false_eq_true, if_true]
      exact Or.inr ⟨_, rfl⟩

/-- Witness for C15: the child of `call_cpp` in a world where
`dcc_ignore_sigpipe(0)` returns 3, with `fdwrite` 6 and `fdread` 5. -/
theorem child_branch_ends_witness :
    call_cpp (exampleWorld 0 3 none) ⟨"foo.c", PreprocessMode.Direct, ["-O2"], [], []⟩ 6 5 =
      ([SysCall.flush_debug, SysCall.fork, SysCall.close 5, SysCall.dcc_ignore_sigpipe 0],
        Outcome.exited 3) :=
  (child_branch_ends (exampleWorld 0 3 none)
    ⟨"foo.c", PreprocessMode.Direct, ["-O2"], [], []⟩ 6 5 rfl).1 (by decide)

/-- C16: in the child of `call_cpp`, when the SIGPIPE reset succeeds, the run
ends with the one `execv` call, and for every descriptor table in which
`fdwrite >= 0` is open, `fdread` differs from `fdwrite` and no negative
descriptor is open, the table in front of that call has descriptor 1 on the
object `fdwrite` had on entry and has `fdread` and `fdwrite` closed unless they
are descriptor 1; `dcc_increment_safeguard` was called exactly once, and no
`dup2` was made when `fdwrite` is descriptor 1. -/
theorem call_cpp_child_descriptors (w : World) (job : CompileJob) (fdwrite fdread : Int)
    (t : FdTable) (obj : FileObj)
    (hchild : w.forkRet = 0) (hsig : w.sigpipeRet = 0)
    (hopen : t fdwrite = some obj) (hw : 0 ≤ fdwrite) (hne : fdread ≠ fdwrite)
    (hneg : ∀ fd : Int, fd < 0 → t fd = none) :
    ∃ (pre : List SysCall) (argv : List Slot),
      call_cpp_argv w.tc w.fs job = some argv ∧
      (call_cpp w job fdwrite fdread).1 =
        pre ++ [SysCall.execv (argv.getD 0 Slot.uninit) argv] ∧
      (∀ (p : Slot) (a : List Slot), SysCall.execv p a ∉ pre) ∧
      runFds pre t STDOUT_FILENO = some obj ∧
      (fdread ≠ STDOUT_FILENO → runFds pre t fdread = none) ∧
      (fdwrite ≠ STDOUT_FILENO → runFds pre t fdwrite = none) ∧
      pre.count SysCall.dcc_increment_safeguard = 1 ∧
      (fdwrite = STDOUT_FILENO → ∀ a b : Int, SysCall.dup2 a b ∉ pre) := by
  obtain ⟨argv, hargv⟩ := call_cpp_argv_isSome w.tc w.fs job
  have h0 : ¬ (0 : Int) = -1 := by decide
  refine ⟨[SysCall.flush_debug, SysCall.fork] ++
      (if fdread > -1 then [SysCall.close fdread] else []) ++
      [SysCall.dcc_ignore_sigpipe 0] ++
      (if fdwrite ≠ STDOUT_FILENO then
        [SysCall.close STDOUT_FILENO, SysCall.dup2 fdwrite STDOUT_FILENO, SysCall.close fdwrite]
       else []) ++
      [SysCall.dcc_increment_safeguard], argv, hargv, ?_, ?_, ?_, ?_, ?_, ?_, ?_⟩
  · unfold call_cpp
    simp only [hchild, h0, if_false, ne_eq, not_true_eq_false, hsig, hargv]
    cases w.execvRet <;> by_cases hr : fdread > -1 <;> by_cases h1 : fdwrite = STDOUT_FILENO <;>
      simp [hr, h1]
  · intro p a
    by_cases hr : fdread > -1 <;> by_cases h1 : fdwrite = STDOUT_FILENO <;> simp [hr, h1]
  · by_cases hr : fdread > -1 <;> by_cases h1 : fdwrite = STDOUT_FILENO
    · have hr1 : ¬ (1 : Int) = fdread := fun h => hne (by rw [← h, h1]; rfl)
      subst h1
      simp [hr, runFds, SysCall.onFds, FdTable.close, STDOUT_FILENO, hr1] at hopen ⊢
      exact hopen
    · have hwr : ¬ fdwrite = fdread := fun h => hne h.symm
      have h1' : ¬ STDOUT_FILENO = fdwrite := fun h => h1 h.symm
      simp [hr, h1, h1', runFds, SysCall.onFds, FdTable.close, FdTable.dup2, hwr, hopen]
    · subst h1
      simp [hr, runFds, SysCall.onFds, STDOUT_FILENO] at hopen ⊢
      exact hopen
    · have h1' : ¬ STDOUT_FILENO = fdwrite := fun h => h1 h.symm
      simp [hr, h1, h1', runFds, SysCall.onFds, FdTable.close, FdTable.dup2, hopen]
  · intro hr1
    by_cases hr : fdread > -1 <;> by_cases h1 : fdwrite = STDOUT_FILENO
    · simp [hr, h1, runFds, SysCall.onFds, FdTable.close]
    · have hwr : ¬ fdwrite = fdread := fun h => hne h.symm
      simp [hr, h1, runFds, SysCall.onFds, FdTable.close, FdTable.dup2, hwr, hopen, hne, hr1]
    · have hlt : fdread < 0 := by omega
      simp [hr, h1, runFds, SysCall.onFds, hneg fdread hlt]
    · have hlt : fdread < 0 := by omega
      simp [hr, h1, runFds, SysCall.onFds, FdTable.close, FdTable.dup2, hopen, hne, hr1,
        hneg fdread hlt]
  · intro h1
    by_cases hr : fdread > -1
    · have hwr : ¬ fdwrite = fdread := fun h => hne h.symm
      simp [hr, h1, runFds, SysCall.onFds, FdTable.close, FdTable.dup2, hwr, hopen]
    · simp [hr, h1, runFds, SysCall.onFds, FdTable.close, FdTable.dup2, hopen]
  · by_cases hr : fdread > -1 <;> by_cases h1 : fdwrite = STDOUT_FILENO <;>
      simp [hr, h1, List.count_cons]
  · intro h1 a b
    by_cases hr : fdread > -1 <;> simp [hr, h1]

/-- Witness for C16: the child of `call_cpp` with `fdwrite` 6 and `fdread` 5 on
the table that has the pipe on these two descriptors. -/
theorem call_cpp_child_descriptors_witness :
    ∃ (pre : List SysCall) (argv : List Slot),
      call_cpp_argv gccToolchain pchOnly ⟨"foo.c", PreprocessMode.Direct, ["-O2"], [], []⟩ =
        some argv ∧
      (call_cpp (exampleWorld 0 0 none) ⟨"foo.c", PreprocessMode.Direct, ["-O2"], [], []⟩ 6 5).1 =
        pre ++ [SysCall.execv (argv.getD 0 Slot.uninit) argv] ∧
      (∀ (p : Slot) (a : List Slot), SysCall.execv p a ∉ pre) ∧
      runFds pre pipeTable STDOUT_FILENO = some FileObj.pipeWrite ∧
      ((5 : Int) ≠ STDOUT_FILENO → runFds pre pipeTable 5 = none) ∧
      ((6 : Int) ≠ STDOUT_FILENO → runFds pre pipeTable 6 = none) ∧
      pre.count SysCall.dcc_increment_safeguard = 1 ∧
      ((6 : Int) = STDOUT_FILENO → ∀ a b : Int, SysCall.dup2 a b ∉ pre) :=
  call_cpp_child_descriptors (exampleWorld 0 0 none)
    ⟨"foo.c", PreprocessMode.Direct, ["-O2"], [], []⟩ 6 5 pipeTable FileObj.pipeWrite
    rfl rfl (by decide) (by decide) (by decide)
    (by
      intro fd hfd
      unfold pipeTable stdTable
      split_ifs <;> first | rfl | omega)

theorem scanLoop_snd (realpath : String → Option String) (lines : List String) :
    ∀ st : List String × List SysCall,
      ∃ logs : List SysCall, (scanLoop realpath st lines).2 = st.2 ++ logs ∧
        ∀ c ∈ logs, c = SysCall.log_perror "realpath" := by
  induction lines with
  | nil => intro st; exact ⟨[], by simp [scanLoop], by simp⟩
  | cons l ls ih =>
    intro st
    obtain ⟨logs, hlogs, hall⟩ := ih (scanLine realpath st l)
    have hline : (scanLine realpath st l).2 = st.2 ∨
        (scanLine realpath st l).2 = st.2 ++ [SysCall.log_perror "realpath"] := by
      unfold scanLine
      simp only
      split
      · split
        · exact Or.inl rfl
        · exact Or.inr rfl
      · exact Or.inl rfl
    unfold scanLoop at hlogs ⊢
    rw [List.foldl_cons, hlogs]
    rcases hline with h | h
    · exact ⟨logs, by rw [h], hall⟩
    · refine ⟨SysCall.log_perror "realpath" :: logs, by rw [h]; simp, ?_⟩
      intro c hc
      rcases List.mem_cons.mp hc with h1 | h1
      · exact h1
      · exact hall c h1

theorem runFds_append (a b : List SysCall) (t : FdTable) :
    runFds (a ++ b) t = runFds b (runFds a t) := by
  unfold runFds
  rw [List.foldl_append]

theorem runFds_logs (logs : List SysCall) (h : ∀ c ∈ logs, c = SysCall.log_perror "realpath")
    (t : FdTable) : runFds logs t = t := by
  induction logs with
  | nil => rfl
  | cons c logs ih =>
    have hc := h c (by simp)
    subst hc
    have := ih (fun c hc => h c (List.mem_cons_of_mem _ hc))
    unfold runFds at this ⊢
    rw [List.foldl_cons]
    exact this

/-- C17 at the failing input, a world in which `pipe()` succeeds with the
descriptors 5 and 6 and `fork()` fails: `find_included_headers` returns right
after `log_perror`, and the two descriptors, closed on entry, are open on
return. The two other return paths of the parent leak nothing: after a failed
`pipe()` the table is as on entry, and after a completed scan both pipe
descriptors are closed and every other descriptor is as on entry. -/
theorem find_included_headers_fork_failure_leak :
    (find_included_headers (exampleWorld (-1) 0 none)
        ⟨"foo.c", PreprocessMode.Direct, ["-O2"], [], []⟩ =
      ([SysCall.flush_debug, SysCall.pipe 0 5 6, SysCall.fork,
          SysCall.log_perror "failed to fork:"], Outcome.returned []) ∧
      stdTable 5 = none ∧ stdTable 6 = none ∧
      runFds (find_included_headers (exampleWorld (-1) 0 none)
        ⟨"foo.c", PreprocessMode.Direct, ["-O2"], [], []⟩).1 stdTable 5 =
          some FileObj.pipeRead ∧
      runFds (find_included_headers (exampleWorld (-1) 0 none)
        ⟨"foo.c", PreprocessMode.Direct, ["-O2"], [], []⟩).1 stdTable 6 =
          some FileObj.pipeWrite) ∧
    (∀ (w : World) (job : CompileJob) (t : FdTable), w.pipeRet < 0 →
      runFds (find_included_headers w job).1 t = t) ∧
    (∀ (w : World) (job : CompileJob) (t : FdTable) (fd : Int),
      ¬ w.pipeRet < 0 → w.forkRet ≠ -1 → w.forkRet ≠ 0 →
      runFds (find_included_headers w job).1 t fd =
        if fd = w.pipes0 ∨ fd = w.pipes1 then none else t fd) := by
  refine ⟨⟨rfl, rfl, rfl, rfl, rfl⟩, ?_, ?_⟩
  · intro w job t hpipe
    unfold find_included_headers
    simp [hpipe, runFds, SysCall.onFds]
  · intro w job t fd hpipe hfork hchild
    unfold find_included_headers
    simp only [hpipe, hfork, hchild, if_false, ne_eq, not_false_eq_true, if_true]
    obtain ⟨logs, hlogs, hall⟩ := scanLoop_snd w.realpath w.stream
      ([], [SysCall.flush_debug, SysCall.pipe w.pipeRet w.pipes0 w.pipes1] ++ [SysCall.fork] ++
        [SysCall.close w.pipes1] ++ [SysCall.fdopen w.pipes0])
    rw [hlogs, runFds_append, runFds_append, runFds_logs logs hall]
    by_cases h0 : fd = w.pipes0
    · simp [runFds, SysCall.onFds, FdTable.close, h0]
    · by_cases h1 : fd = w.pipes1
      · simp [runFds, SysCall.onFds, FdTable.close, h1]
      · simp [runFds, SysCall.onFds, FdTable.close, h0, h1, hpipe]

theorem scanHeaders_eq_specScan (canon : String → Option String) (lines : List String) :
    scanHeaders canon lines = specScan canon lines := by
  unfold scanHeaders
  rw [scanLoop_fst]
  rfl

/-- C18: the header scan of a sequence of lines is the scan of its front part
followed by the scan of its back part, and a line in between that does not
begin with '.', or whose path does not canonicalize, adds nothing and changes
nothing in what the other lines give. -/
theorem scanHeaders_append (canon : String → Option String) (xs ys : List String)
    (l : String) :
    scanHeaders canon (xs ++ ys) = scanHeaders canon xs ++ scanHeaders canon ys ∧
    (l.data.head? ≠ some '.' ∨ canon (specLinePath l) = none →
      scanHeaders canon [l] = [] ∧
      scanHeaders canon (xs ++ [l] ++ ys) = scanHeaders canon xs ++ scanHeaders canon ys) := by
  have happ : ∀ as bs : List String,
      scanHeaders canon (as ++ bs) = scanHeaders canon as ++ scanHeaders canon bs := by
    intro as bs
    simp only [scanHeaders_eq_specScan, specScan, List.filterMap_append]
  refine ⟨happ xs ys, ?_⟩
  intro hl
  have hone : scanHeaders canon [l] = [] := by
    rw [scanHeaders_eq_specScan]
    unfold specScan
    rcases hl with h | h
    · simp [h]
    · by_cases hd : l.data.head? = some '.'
      · simp [hd, h]
      · simp [hd]
  refine ⟨hone, ?_⟩
  rw [happ, happ, hone, List.append_nil]

/-- Witness for C18: a compiler note between two header lines. -/
theorem scanHeaders_append_witness :
    scanHeaders (fun p => some p)
        ([". /usr/include/stdio.h\n"] ++ ["note: something\n"] ++
          [".. /usr/include/bits/types.h\n"]) =
      scanHeaders (fun p => some p) [". /usr/include/stdio.h\n"] ++
        scanHeaders (fun p => some p) [".. /usr/include/bits/types.h\n"] :=
  ((scanHeaders_append (fun p => some p) [". /usr/include/stdio.h\n"]
    [".. /usr/include/bits/types.h\n"] "note: something\n").2 (Or.inl (by decide))).2

theorem count_null_strs (toks : List String) (k : Nat) :
    (toks.map Slot.str ++ Slot.null :: List.replicate k Slot.uninit).count Slot.null = 1 := by
  induction toks with
  | nil =>
    rw [List.map_nil, List.nil_append, List.count_cons_self, List.count_replicate]
    simp
  | cons x toks ih =>
    rw [List.map_cons, List.cons_append, List.count_cons_of_ne (by simp), ih]

/-- C19: in both builders every assignment to `argv` is inside the array (an
assignment outside of it would make the model `none`). The array of `call_cpp`
has 3 elements for a preprocessed input and `flags.size() + 5` otherwise, the
one of `find_included_headers` has `flags.size() + 6`. In each the tokens are
followed directly by the one null terminator, and at most one element behind
it is left unwritten. -/
theorem argv_writes_in_bounds (tc : Toolchain) (fs : FileSystem) (job : CompileJob) :
    (∃ (argv : List Slot) (toks : List String) (k : Nat),
      call_cpp_argv tc fs job = some argv ∧
      argv = toks.map Slot.str ++ Slot.null :: List.replicate k Slot.uninit ∧
      k ≤ 1 ∧ toks.length < argv.length ∧ argv.count Slot.null = 1 ∧
      (dcc_is_preprocessed job.inputFile = true → argv.length = 2 + 1) ∧
      (dcc_is_preprocessed job.inputFile = false →
        ∃ kept : List String, filterFlags fs (job.localFlags ++ job.cppFlags) = some kept ∧
          argv.length = (kept ++ job.restFlags).length + 5)) ∧
    (∃ (argv : List Slot) (toks : List String) (k : Nat),
      find_included_headers_argv tc job = some argv ∧
      argv = toks.map Slot.str ++ Slot.null :: List.replicate k Slot.uninit ∧
      k ≤ 1 ∧ toks.length < argv.length ∧ argv.count Slot.null = 1 ∧
      argv.length = (job.localFlags ++ job.cppFlags ++ job.restFlags).length + 6) := by
  constructor
  · cases hpre : dcc_is_preprocessed job.inputFile with
    | true =>
      refine ⟨_, ["/bin/cat", job.inputFile], 0, call_cpp_argv_preprocessed tc fs job hpre,
        rfl, by omega, by simp, ?_, fun _ => rfl, fun h => absurd h (by simp)⟩
      exact count_null_strs ["/bin/cat", job.inputFile] 0
    | false =>
      have h := call_cpp_argv_plain tc fs job hpre
      by_cases hm : job.preprocessMode = PreprocessMode.RewriteIncludes
      · simp only [hm, if_true] at h
        refine ⟨_, tc.find_compiler job ::
            (filterRec fs (job.localFlags ++ job.cppFlags) ++ job.restFlags ++
              ["-E", job.inputFile] ++ ["-frewrite-includes"]), 0, h, rfl, by omega, ?_, ?_,
          fun h => absurd h (by simp), fun _ => ⟨_, filterFlags_eq fs _, ?_⟩⟩
        · simp
        · exact count_null_strs _ 0
        · simp
          omega
      · simp only [hm, if_false] at h
        refine ⟨_, tc.find_compiler job ::
            (filterRec fs (job.localFlags ++ job.cppFlags) ++ job.restFlags ++
              ["-E", job.inputFile] ++ []), 1, h, rfl, by omega, ?_, ?_,
          fun h => absurd h (by simp), fun _ => ⟨_, filterFlags_eq fs _, ?_⟩⟩
        · simp
        · exact count_null_strs _ 1
        · simp
          omega
  · have h := find_included_headers_argv_eq tc job
    cases h1 : tc.compiler_is_clang job <;> cases h2 : tc.compiler_has_rewrite_includes job <;>
      simp only [h1, h2, Bool.false_eq_true, if_false, if_true, false_and, and_false, and_self,
        Bool.true_eq_false] at h
    · refine ⟨_, tc.find_compiler job ::
          (job.localFlags ++ job.cppFlags ++ job.restFlags ++ ["-E", "-H", job.inputFile] ++
            ["-fdirectives-only"]), 0, h, rfl, by omega, ?_, count_null_strs _ 0, ?_⟩
      · simp
      · simp
        omega
    · refine ⟨_, tc.find_compiler job ::
          (job.localFlags ++ job.cppFlags ++ job.restFlags ++ ["-E", "-H", job.inputFile] ++
            ["-fdirectives-only"]), 0, h, rfl, by omega, ?_, count_null_strs _ 0, ?_⟩
      · simp
      · simp
        omega
    · refine ⟨_, tc.find_compiler job ::
          (job.localFlags ++ job.cppFlags ++ job.restFlags ++ ["-E", "-H", job.inputFile] ++
            []), 1, h, rfl, by omega, ?_, count_null_strs _ 1, ?_⟩
      · simp
      · simp
        omega
    · refine ⟨_, tc.find_compiler job ::
          (job.localFlags ++ job.cppFlags ++ job.restFlags ++ ["-E", "-H", job.inputFile] ++
            ["-frewrite-includes"]), 0, h, rfl, by omega, ?_, count_null_strs _ 0, ?_⟩
      · simp
      · simp
        omega

end Icecream
